import Mathlib
set_option maxHeartbeats 1000000

inductive Json where
  | null
  | bool (b : Bool)
  | num (n : Int)
  | str (s : String)
  | arr (elems : List Json)
  | obj (members : List (String × Json))
deriving Repr, BEq, Inhabited

def dupsOf (seen : List String) : List String → List String
  | [] => []
  | k :: ks => if k ∈ seen then k :: dupsOf seen ks else dupsOf (k :: seen) ks

mutual
def loadStrict : Json → Except (List String) Json
  | .null => .ok .null
  | .bool b => .ok (.bool b)
  | .num n => .ok (.num n)
  | .str s => .ok (.str s)
  | .arr es =>
      match loadList es with
      | .error e => .error e
      | .ok l => .ok (.arr l)
  | .obj ms =>
      match loadPairs ms with
      | .error e => .error e
      | .ok qs =>
          let d := dupsOf [] (qs.map Prod.fst)
          if d = [] then .ok (.obj qs) else .error d

def loadList : List Json → Except (List String) (List Json)
  | [] => .ok []
  | x :: xs =>
      match loadStrict x with
      | .error e => .error e
      | .ok y =>
          match loadList xs with
          | .error e => .error e
          | .ok t => .ok (y :: t)

def loadPairs : List (String × Json) → Except (List String) (List (String × Json))
  | [] => .ok []
  | (k, v) :: xs =>
      match loadStrict v with
      | .error e => .error e
      | .ok y =>
          match loadPairs xs with
          | .error e => .error e
          | .ok t => .ok ((k, y) :: t)
end

mutual
def noLocalDup : Json → Bool
  | .null => true
  | .bool _ => true
  | .num _ => true
  | .str _ => true
  | .arr es => noLocalDupList es
  | .obj ms => (dupsOf [] (ms.map Prod.fst)).isEmpty && noLocalDupPairs ms

def noLocalDupList : List Json → Bool
  | [] => true
  | x :: xs => noLocalDup x && noLocalDupList xs

def noLocalDupPairs : List (String × Json) → Bool
  | [] => true
  | (_, v) :: xs => noLocalDup v && noLocalDupPairs xs
end

mutual
/-- All object scopes (member lists) occurring anywhere in a value. -/
def scopes : Json → List (List (String × Json))
  | .null => []
  | .bool _ => []
  | .num _ => []
  | .str _ => []
  | .arr es => scopesList es
  | .obj ms => ms :: scopesPairs ms

def scopesList : List Json → List (List (String × Json))
  | [] => []
  | x :: xs => scopes x ++ scopesList xs

def scopesPairs : List (String × Json) → List (List (String × Json))
  | [] => []
  | (_, v) :: xs => scopes v ++ scopesPairs xs
end

-- ------------------- Python string order (code-point lexicographic) ----------

/-- Python string comparison: lexicographic on code points. (Lean's builtin
`String.lt` does not reduce in the kernel, so the order is spelled out.) -/
def charLe : List Char → List Char → Bool
  | [], _ => true
  | _ :: _, [] => false
  | a :: as, b :: bs => if a < b then true else if b < a then false else charLe as bs

def strLe (a b : String) : Bool := charLe a.data b.data

def charLt : List Char → List Char → Bool
  | [], [] => false
  | [], _ :: _ => true
  | _ :: _, [] => false
  | a :: as, b :: bs => if a < b then true else if b < a then false else charLt as bs

def strLt (a b : String) : Bool := charLt a.data b.data

-- ------------------- stable_json_dump (data_guard.py:219-236) ----------------

/-- The key order produced by `sort_keys`: keys sorted alphabetically, then
`"id"` removed and re-inserted at position 0 — i.e. `"id"` first, the rest
in Python string order. -/
def idLe (a b : String) : Bool :=
  if a = "id" then true else if b = "id" then false else strLe a b

def keyRel (p q : String × Json) : Prop := strLe p.1 q.1 = true

def idKeyRel (p q : String × Json) : Prop := idLe p.1 q.1 = true

instance : DecidableRel keyRel := fun _ _ => instDecidableEqBool _ _

instance : DecidableRel idKeyRel := fun _ _ => instDecidableEqBool _ _

/-- One level of `sort_keys` (data_guard.py:221-229): sort the members by
key (`keys.sort()`), then hoist the `"id"` member to the front
(`keys.remove("id"); keys.insert(0, "id")`). Python's stable `list.sort`
is embedded as insertion sort, which computes the same result. -/
def hoistId (ms : List (String × Json)) : List (String × Json) :=
  match (List.insertionSort keyRel ms).find? (fun p => p.1 == "id") with
  | some p => p :: (List.insertionSort keyRel ms).eraseP (fun p => p.1 == "id")
  | none => List.insertionSort keyRel ms

mutual
/-- The `sort_keys` order of `stable_json_dump`: dict keys sorted with `"id"` first,
recursing into dict values only — `sort_keys` returns non-dict values
(lists included) unchanged. Children are canonicalized before the level is
sorted; `hoistId` reads only keys, so this equals the source's
sort-then-recurse order. -/
def sortKeysFun : Json → Json
  | .null => .null
  | .bool b => .bool b
  | .num n => .num n
  | .str s => .str s
  | .arr es => .arr es
  | .obj ms => .obj (hoistId (sortPairsVals ms))

def sortPairsVals : List (String × Json) → List (String × Json)
  | [] => []
  | (k, v) :: xs => (k, sortKeysFun v) :: sortPairsVals xs
end

/-- Keys in id-first order (adjacent check; `idLe` is transitive). -/
def keysIdSorted : List String → Bool
  | [] => true
  | [_] => true
  | a :: b :: rest => idLe a b && keysIdSorted (b :: rest)

mutual
/-- The claim's canonical form: EVERY object scope, including those nested
inside arrays, has its keys in id-first sorted order. -/
def deepIdSorted : Json → Bool
  | .null => true
  | .bool _ => true
  | .num _ => true
  | .str _ => true
  | .arr es => deepIdSortedList es
  | .obj ms => keysIdSorted (ms.map Prod.fst) && deepIdSortedPairs ms

def deepIdSortedList : List Json → Bool
  | [] => true
  | x :: xs => deepIdSorted x && deepIdSortedList xs

def deepIdSortedPairs : List (String × Json) → Bool
  | [] => true
  | (_, v) :: xs => deepIdSorted v && deepIdSortedPairs xs
end

mutual
/-- What the rewrite actually guarantees: object scopes reachable without
crossing an array are in id-first sorted order (arrays and everything below
them are left as parsed). -/
def idSortedOutsideArr : Json → Bool
  | .null => true
  | .bool _ => true
  | .num _ => true
  | .str _ => true
  | .arr _ => true
  | .obj ms => keysIdSorted (ms.map Prod.fst) && idSortedOutsidePairs ms

def idSortedOutsidePairs : List (String × Json) → Bool
  | [] => true
  | (_, v) :: xs => idSortedOutsideArr v && idSortedOutsidePairs xs
end

-- ------------------- json.dump serialization (indent=2) -------------------

/-- Lowercase hex digit, as Python's `\uXXXX` escapes use. -/
def hexDigit (n : Nat) : Char := if n < 10 then Char.ofNat (48 + n) else Char.ofNat (87 + n)

def hex4 (n : Nat) : String :=
  String.mk [hexDigit (n / 4096 % 16), hexDigit (n / 256 % 16),
    hexDigit (n / 16 % 16), hexDigit (n % 16)]

/-- Python `json` escaping with `ensure_ascii=False`: only `"`, backslash and
control characters are escaped. -/
def escChar (c : Char) : String :=
  if c = '"' then "\\\""
  else if c = '\\' then "\\\\"
  else if c = Char.ofNat 8 then "\\b"
  else if c = Char.ofNat 9 then "\\t"
  else if c = Char.ofNat 10 then "\\n"
  else if c = Char.ofNat 12 then "\\f"
  else if c = Char.ofNat 13 then "\\r"
  else if c.toNat < 32 then "\\u" ++ hex4 c.toNat
  else String.singleton c

def escString (s : String) : String := String.join (s.data.map escChar)

def quoteStr (s : String) : String := "\"" ++ escString s ++ "\""

def indentStr (n : Nat) : String := String.mk (List.replicate (2 * n) ' ')

mutual
/-- Serialization as `json.dump(obj, f, ensure_ascii=False, indent=2)` on the integer-number
fragment of JSON the tool manipulates. -/
def dumpJson : Nat → Json → String
  | _, .null => "null"
  | _, .bool true => "true"
  | _, .bool false => "false"
  | _, .num n => toString n
  | _, .str s => quoteStr s
  | _, .arr [] => "[]"
  | lvl, .arr (e :: es) =>
      "[\n" ++ indentStr (lvl + 1) ++ dumpJson (lvl + 1) e ++
        dumpItems (lvl + 1) es ++ "\n" ++ indentStr lvl ++ "]"
  | _, .obj [] => "\x7b\x7d"
  | lvl, .obj (p :: ps) =>
      "\x7b\n" ++ indentStr (lvl + 1) ++ quoteStr p.1 ++ ": " ++
        dumpJson (lvl + 1) p.2 ++ dumpMembers (lvl + 1) ps ++ "\n" ++
        indentStr lvl ++ "\x7d"

/-- Continuation of an array body: `",\n<indent><item>"` per element. -/
def dumpItems : Nat → List Json → String
  | _, [] => ""
  | lvl, f :: fs => ",\n" ++ indentStr lvl ++ dumpJson lvl f ++ dumpItems lvl fs

/-- Continuation of an object body: `",\n<indent>"key": <value>"` per member. -/
def dumpMembers : Nat → List (String × Json) → String
  | _, [] => ""
  | lvl, q :: qs =>
      ",\n" ++ indentStr lvl ++ quoteStr q.1 ++ ": " ++ dumpJson lvl q.2 ++
        dumpMembers lvl qs
end

/-- Embedding of `stable_json_dump` (data_guard.py:219-236): the bytes written are the
canonicalized document serialized with indent 2 plus a trailing newline. -/
def stableDumpBytes (j : Json) : String := dumpJson 0 (sortKeysFun j) ++ "\n"

-- ------------------- sha256_of_file (data_guard.py:102-107) ----------------

/-- Truncation to a 32-bit word. -/
def w32 (x : Nat) : Nat := x % 4294967296

/-- Right-rotation of a 32-bit word. -/
def rotr (n x : Nat) : Nat := w32 (x / 2 ^ n + x * 2 ^ (32 - n))

def smallSigma0 (x : Nat) : Nat := (rotr 7 x) ^^^ (rotr 18 x) ^^^ (x / 8)

def smallSigma1 (x : Nat) : Nat := (rotr 17 x) ^^^ (rotr 19 x) ^^^ (x / 1024)

def bigSigma0 (x : Nat) : Nat := (rotr 2 x) ^^^ (rotr 13 x) ^^^ (rotr 22 x)

def bigSigma1 (x : Nat) : Nat := (rotr 6 x) ^^^ (rotr 11 x) ^^^ (rotr 25 x)

def chNat (x y z : Nat) : Nat := (x &&& y) ^^^ ((x ^^^ 4294967295) &&& z)

def majNat (x y z : Nat) : Nat := (x &&& y) ^^^ (x &&& z) ^^^ (y &&& z)

/-- The SHA-256 working state (a..h). -/
structure Hash8 where
  a : Nat
  b : Nat
  c : Nat
  d : Nat
  e : Nat
  f : Nat
  g : Nat
  h : Nat

def shaInit : Hash8 :=
  ⟨1779033703, 3144134277, 1013904242, 2773480762,
   1359893119, 2600822924, 528734635, 1541459225⟩

def shaK : List Nat :=
  [1116352408, 1899447441, 3049323471, 3921009573, 961987163, 1508970993,
   2453635748, 2870763221, 3624381080, 310598401, 607225278, 1426881987,
   1925078388, 2162078206, 2614888103, 3248222580, 3835390401, 4022224774,
   264347078, 604807628, 770255983, 1249150122, 1555081692, 1996064986,
   2554220882, 2821834349, 2952996808, 3210313671, 3336571891, 3584528711,
   113926993, 338241895, 666307205, 773529912, 1294757372, 1396182291,
   1695183700, 1986661051, 2177026350, 2456956037, 2730485921, 2820302411,
   3259730800, 3345764771, 3516065817, 3600352804, 4094571909, 275423344,
   430227734, 506948616, 659060556, 883997877, 958139571, 1322822218,
   1537002063, 1747873779, 1955562222, 2024104815, 2227730452, 2361852424,
   2428436474, 2756734187, 3204031479, 3329325298]

/-- Message-schedule extension, on the reversed schedule (most recent word
first): `w[t] = σ1(w[t-2]) + w[t-7] + σ0(w[t-15]) + w[t-16]`. -/
def extendWs : Nat → List Nat → List Nat
  | 0, ws => ws
  | n + 1, ws =>
      extendWs n (w32 (smallSigma1 (ws.getD 1 0) + ws.getD 6 0 +
        smallSigma0 (ws.getD 14 0) + ws.getD 15 0) :: ws)

/-- One compression round; `kw` is `k[i] + w[i]`. -/
def shaRound (st : Hash8) (kw : Nat) : Hash8 :=
  let t1 := w32 (st.h + bigSigma1 st.e + chNat st.e st.f st.g + kw)
  let t2 := w32 (bigSigma0 st.a + majNat st.a st.b st.c)
  ⟨w32 (t1 + t2), st.a, st.b, st.c, w32 (st.d + t1), st.e, st.f, st.g⟩

/-- Big-endian 32-bit words from bytes. -/
def bytesToWords : List Nat → List Nat
  | b0 :: b1 :: b2 :: b3 :: rest =>
      (b0 * 16777216 + b1 * 65536 + b2 * 256 + b3) :: bytesToWords rest
  | _ => []

def compressBlock (st : Hash8) (block : List Nat) : Hash8 :=
  let ws := (extendWs 48 (bytesToWords block).reverse).reverse
  let kws := List.zipWith (fun k w => w32 (k + w)) shaK ws
  let fin := kws.foldl shaRound st
  ⟨w32 (st.a + fin.a), w32 (st.b + fin.b), w32 (st.c + fin.c), w32 (st.d + fin.d),
   w32 (st.e + fin.e), w32 (st.f + fin.f), w32 (st.g + fin.g), w32 (st.h + fin.h)⟩

/-- SHA-256 padding: `0x80`, zeros to 56 mod 64, 8-byte big-endian bit length. -/
def sha256pad (l : List Nat) : List Nat :=
  let bitLen := 8 * l.length
  let zeros := (120 - ((l.length + 1) % 64)) % 64
  l ++ 128 :: List.replicate zeros 0 ++
    [bitLen / 2 ^ 56 % 256, bitLen / 2 ^ 48 % 256, bitLen / 2 ^ 40 % 256,
     bitLen / 2 ^ 32 % 256, bitLen / 2 ^ 24 % 256, bitLen / 2 ^ 16 % 256,
     bitLen / 2 ^ 8 % 256, bitLen % 256]

def shaBlocks (st : Hash8) (bytes : List Nat) : Hash8 :=
  if bytes = [] then st
  else shaBlocks (compressBlock st (bytes.take 64)) (bytes.drop 64)
termination_by bytes.length
decreasing_by
  simp only [List.length_drop]
  have : 0 < bytes.length := List.length_pos.mpr (by assumption)
  omega

/-- Eight-hex-digit rendering of a 32-bit word. -/
def toHex8 (w : Nat) : String :=
  String.mk [hexDigit (w / 268435456 % 16), hexDigit (w / 16777216 % 16),
    hexDigit (w / 1048576 % 16), hexDigit (w / 65536 % 16),
    hexDigit (w / 4096 % 16), hexDigit (w / 256 % 16),
    hexDigit (w / 16 % 16), hexDigit (w % 16)]

/-- One-shot SHA-256 hex digest of a byte sequence (`hashlib.sha256(data).hexdigest()`). -/
def sha256hex (l : List Nat) : String :=
  let st := shaBlocks shaInit (sha256pad l)
  toHex8 st.a ++ toHex8 st.b ++ toHex8 st.c ++ toHex8 st.d ++
    toHex8 st.e ++ toHex8 st.f ++ toHex8 st.g ++ toHex8 st.h

/-- The `f.read(1024 * 1024)` loop of `sha256_of_file`: the file's bytes as
successive 1 MiB chunks (last chunk shorter; empty file yields no chunks). -/
def readChunks (l : List Nat) : List (List Nat) :=
  if l = [] then [] else l.take 1048576 :: readChunks (l.drop 1048576)
termination_by l.length
decreasing_by
  simp only [List.length_drop]
  have : 0 < l.length := List.length_pos.mpr (by assumption)
  omega

/-- hashlib's incremental hash object, modelled by its absorbed byte stream:
`h.update(chunk)` appends the chunk, `h.hexdigest()` hashes the whole stream. -/
def shaUpdate (absorbed chunk : List Nat) : List Nat := absorbed ++ chunk

/-- Embedding of `sha256_of_file` (data_guard.py:102-107): fold `update` over the 1 MiB
chunks of the file, then take the hex digest of the absorbed stream. -/
def sha256_of_file (contents : List Nat) : String :=
  sha256hex ((readChunks contents).foldl shaUpdate [])

-- ------------------- sorted string sets (Python set → sorted list) ----------

/-- Insert into a strictly sorted list, dropping duplicates. Python `set`s of
strings are embedded as strictly sorted lists: every later use is
order-insensitive (`sorted(...)`, membership, counting). -/
def insertSortedDedup (a : String) : List String → List String
  | [] => [a]
  | b :: t =>
      if strLt a b then a :: b :: t
      else if a = b then b :: t
      else b :: insertSortedDedup a t

def sortedDedup (l : List String) : List String := l.foldl (fun acc a => insertSortedDedup a acc) []

-- ------------------- reference extraction (data_guard.py:137-175) -----------

mutual
/-- Embedding of `iter_json_pairs` (data_guard.py:147-154). -/
def iterPairs : Json → List (String × Json)
  | .null => []
  | .bool _ => []
  | .num _ => []
  | .str _ => []
  | .arr es => iterPairsList es
  | .obj ms => iterPairsMembers ms

def iterPairsList : List Json → List (String × Json)
  | [] => []
  | x :: xs => iterPairs x ++ iterPairsList xs

def iterPairsMembers : List (String × Json) → List (String × Json)
  | [] => []
  | (k, v) :: xs => (k, v) :: (iterPairs v ++ iterPairsMembers xs)
end

mutual
/-- Embedding of `iter_json_values` (data_guard.py:137-145): leaf values. -/
def iterValues : Json → List Json
  | .null => [.null]
  | .bool b => [.bool b]
  | .num n => [.num n]
  | .str s => [.str s]
  | .arr es => iterValuesList es
  | .obj ms => iterValuesMembers ms

def iterValuesList : List Json → List Json
  | [] => []
  | x :: xs => iterValues x ++ iterValuesList xs

def iterValuesMembers : List (String × Json) → List Json
  | [] => []
  | (_, v) :: xs => iterValues v ++ iterValuesMembers xs
end

/-- ASCII lowering (Python `str.lower()` restricted to ASCII, which covers
the recognized extensions). Spelled out so it reduces in the kernel. -/
def charLower (c : Char) : Char :=
  if 65 ≤ c.toNat && c.toNat ≤ 90 then Char.ofNat (c.toNat + 32) else c

def strLower (s : String) : String := String.mk (s.data.map charLower)

/-- Python `str.endswith`, on the character lists (kernel-reducible). -/
def strEndsWith (s suffix : String) : Bool := List.isSuffixOf suffix.data s.data

/-- Split on `/` (`Path(rel).parts` for a relative posix path). -/
def splitSlashAux (cur : List Char) : List Char → List String
  | [] => [String.mk cur.reverse]
  | c :: cs =>
      if c = '/' then String.mk cur.reverse :: splitSlashAux [] cs
      else splitSlashAux (c :: cur) cs

def splitSlash (s : String) : List String := splitSlashAux [] s.data

def ASSET_EXTS : List String :=
  [".png", ".jpg", ".jpeg", ".dds", ".tga", ".wav", ".mp3", ".ogg",
   ".ttf", ".otf", ".bin", ".shader", ".hlsl", ".glsl", ".fx"]

/-- Contribution of one (key, value) pair to `extract_deps`
(data_guard.py:158-165). -/
def depOfPair (p : String × Json) : List String :=
  match p.2 with
  | .str s => if strEndsWith p.1 "_id" then [s] else []
  | .arr l => if strEndsWith p.1 "_ids" then
      l.filterMap (fun x => match x with | .str s => some s | _ => none) else []
  | _ => []

/-- Embedding of `extract_deps` (returns a Python set; embedded as a sorted dedup list). -/
def extract_deps (content : List (String × Json)) : List String :=
  sortedDedup ((iterPairs (Json.obj content)).flatMap depOfPair)

/-- Embedding of `extract_asset_refs` (data_guard.py:167-175): every string leaf whose
lowercase form ends with a recognized media extension. -/
def assetRefOfValue (v : Json) : List String :=
  match v with
  | .str s => if ASSET_EXTS.any (fun e => strEndsWith (strLower s) e) then [s] else []
  | _ => []

def extract_asset_refs (content : List (String × Json)) : List String :=
  sortedDedup ((iterValues (Json.obj content)).flatMap assetRefOfValue)

/-- Embedding of `guess_type_from_path` (data_guard.py:109-119). -/
def guess_type_from_path (rel : String) : String :=
  let parts := splitSlash rel
  match parts.indexOf? "data" with
  | some idx => if idx + 1 < parts.length then parts.getD (idx + 1) "data" else "data"
  | none => "data"

-- ------------------- data model of the pipeline -------------------

/-- One finding; each constructor mirrors one `report.error` / `report.warn`
call site in data_guard.py, carrying the fields its f-string renders. -/
inductive Finding where
  | dataDirMissing                                      -- analyze:245 (error)
  | noJsonFiles                                         -- analyze:250 (warning)
  | parseFailed (rel : String)                          -- analyze:265 (error: syntax or duplicate keys)
  | idNotString (rel : String)                          -- analyze:270 (error)
  | schemaNotString (rel : String)                      -- analyze:275 (warning)
  | dupId (id : String) (occurrences : Nat) (firstSeen : Option String)  -- analyze:310-315 (error)
  | unresolvedRefs (rel : String) (missing : List String)  -- analyze:325-327 (error)
  | missingAsset (rel : String) (ref : String)          -- analyze:350 (warning)
  | schemaValidatorUnavailable (rel : String)           -- try_schema_validate:185 (warning)
deriving Repr, BEq, DecidableEq

/-- The `DataFile` dataclass (data_guard.py:48-58); `content` is the parsed
top-level object, sets are sorted dedup lists. -/
structure DataFile where
  rel : String
  content : List (String × Json)
  id : Option String
  typeGuess : String
  schema : Option String
  sha256 : String
  deps : List String
  assetRefs : List String

/-- One file discovered by `collect_json_files` (data_guard.py:121-122), in
`rglob` enumeration order (the source does NOT sort it): root-relative posix
path, raw bytes, and the text's parse outcome — `none` for text that is not
JSON at all, `some ms` for a top-level object whose scopes may still contain
duplicate keys (then rejected by the strict loader). -/
structure RawFile where
  rel : String
  bytes : List Nat
  parsed : Option (List (String × Json))

/-- An asset under `res/` or `resources/` (data_guard.py:124-133): path
components relative to root (Python sorts `Path`s by their parts tuple),
bytes, size. -/
structure AssetFile where
  parts : List String
  bytes : List Nat
  sizeBytes : Nat

def partsPosix : List String → String
  | [] => ""
  | [p] => p
  | p :: rest => p ++ "/" ++ partsPosix rest

/-- Existence oracles for `resolve_asset`'s direct filesystem probes; paths
are root-relative strings (`.resolve()` is the identity here: inputs are
taken as already normalized). -/
structure FileSys where
  fsExists : String → Bool
  fsIsFile : String → Bool

/-- Embedding of `load_json_strict` applied to a discovered file (data_guard.py:260-266):
syntax errors and duplicate-key errors both surface as exceptions, handled
identically by `analyze`. -/
def parseFile (f : RawFile) : Option (List (String × Json)) :=
  match f.parsed with
  | none => none
  | some ms =>
      match loadStrict (Json.obj ms) with
      | .ok _ => some ms
      | .error _ => none

/-- The `content.get("id")` step plus the string check (data_guard.py:268-271):
a non-string id is reported and treated as absent. -/
def jidOf (content : List (String × Json)) : Option String :=
  match List.lookup "id" content with
  | some (.str s) => some s
  | _ => none

def jidErrors (content : List (String × Json)) (rel : String) : List Finding :=
  match List.lookup "id" content with
  | some (.str _) => []
  | some _ => [.idNotString rel]
  | none => []

def schemaOf (content : List (String × Json)) : Option String :=
  match List.lookup "$schema" content with
  | some (.str s) => some s
  | _ => none

def schemaWarnings (content : List (String × Json)) (rel : String) : List Finding :=
  match List.lookup "$schema" content with
  | some (.str _) => []
  | some _ => [.schemaNotString rel]
  | none => []

/-- The `DataFile` built for one successfully parsed file (data_guard.py:283-294). -/
def mkDf (f : RawFile) (content : List (String × Json)) : DataFile :=
  { rel := f.rel
    content := content
    id := jidOf content
    typeGuess := guess_type_from_path f.rel
    schema := schemaOf content
    sha256 := sha256_of_file f.bytes
    deps := extract_deps content
    assetRefs := extract_asset_refs content }

def dfOf? (f : RawFile) : Option DataFile := (parseFile f).map (mkDf f)

-- ------------------- resolve_asset (data_guard.py:330-345) -------------------

def hasAssetExt (p : String) : Bool := ASSET_EXTS.any (fun e => strEndsWith (strLower p) e)

/-- The `for base in ("res", "resources")` loop: note that a stale entry in
`asset_set` returns `None` for the whole function without trying later
bases, exactly as the early `return` does. -/
def resolveBases (assetSet : List String) (fs : FileSys) (candidate : String) :
    List String → Option String
  | [] => none
  | base :: rest =>
      let p2 := base ++ "/" ++ candidate
      if p2 ∈ assetSet then (if fs.fsExists p2 then some p2 else none)
      else if fs.fsExists p2 && fs.fsIsFile p2 && hasAssetExt p2 then some p2
      else resolveBases assetSet fs candidate rest

/-- Embedding of `resolve_asset`: try the candidate relative to the root, then under each
media root in declared order; paths are root-relative strings. -/
def resolve_asset (assetSet : List String) (fs : FileSys) (candidate : String) :
    Option String :=
  if candidate ∈ assetSet then (if fs.fsExists candidate then some candidate else none)
  else if fs.fsExists candidate && fs.fsIsFile candidate && hasAssetExt candidate then
    some candidate
  else resolveBases assetSet fs candidate ["res", "resources"]

-- ------------------- analyze (data_guard.py:240-437) -------------------

/-- Mutable state of the per-file loop (data_guard.py:256-307). -/
structure LoopState where
  datafiles : List DataFile
  idIndex : List (String × String)
  idDups : List (String × Nat)
  rewritten : List String
  errors : List Finding
  warnings : List Finding

/-- The update `id_dups[jid] += 1` on a `Counter` (insertion-ordered). -/
def bumpCounter : List (String × Nat) → String → List (String × Nat)
  | [], k => [(k, 1)]
  | (k', n) :: t, k => if k' = k then (k', n + 1) :: t else (k', n) :: bumpCounter t k

/-- The id-index update for one parsed file (data_guard.py:296-300):
`if jid:` — so an empty-string id is skipped; first owner wins, later
occurrences only bump the duplicate counter. -/
def indexStep (idx : List (String × String)) (dups : List (String × Nat))
    (jid : Option String) (rel : String) :
    List (String × String) × List (String × Nat) :=
  match jid with
  | some s =>
      if s ≠ "" then
        if (List.lookup s idx).isSome then (idx, bumpCounter dups s)
        else (idx ++ [(s, rel)], dups)
      else (idx, dups)
  | none => (idx, dups)

/-- One iteration of the `for jp in json_paths` loop (data_guard.py:260-307). -/
def processFile (doFix : Bool) (st : LoopState) (f : RawFile) : LoopState :=
  match parseFile f with
  | none => { st with errors := st.errors ++ [.parseFailed f.rel] }
  | some content =>
      let df := mkDf f content
      let idx2 := indexStep st.idIndex st.idDups df.id f.rel
      { datafiles := st.datafiles ++ [df]
        idIndex := idx2.1
        idDups := idx2.2
        rewritten := st.rewritten ++ (if doFix then [f.rel] else [])
        errors := st.errors ++ jidErrors content f.rel
        warnings := st.warnings ++ schemaWarnings content f.rel }

/-- Duplicate-id errors (data_guard.py:309-315): one per counter entry,
`count+1` occurrences, first-seen owner from the index. -/
def dupErrors (idx : List (String × String)) (dups : List (String × Nat)) : List Finding :=
  dups.map (fun p => .dupId p.1 (p.2 + 1) (List.lookup p.1 idx))

/-- The `unresolved[df.rel].append(dep)` grouping (defaultdict keyed by rel). -/
def addMissing (rel : String) (ms : List String) :
    List (String × List String) → List (String × List String)
  | [] => [(rel, ms)]
  | (r, l) :: t => if r = rel then (r, l ++ ms) :: t else (r, l) :: addMissing rel ms t

/-- The unresolved-reference scan (data_guard.py:317-323), left to right so
the grouping dict keeps first-touch insertion order. -/
def collectUnresolvedAux (known : List String) (acc : List (String × List String)) :
    List DataFile → List (String × List String)
  | [] => acc
  | df :: rest =>
      collectUnresolvedAux known
        (if df.deps.filter (fun d => ¬ d ∈ known) ≠ [] then
          addMissing df.rel (df.deps.filter (fun d => ¬ d ∈ known)) acc
        else acc) rest

def collectUnresolved (known : List String) (dfs : List DataFile) :
    List (String × List String) :=
  collectUnresolvedAux known [] dfs

/-- Asset-reference warnings (data_guard.py:347-350). -/
def assetWarnings (assetSet : List String) (fs : FileSys) (dfs : List DataFile) :
    List Finding :=
  dfs.flatMap (fun df => df.assetRefs.filterMap (fun ref =>
    if (resolve_asset assetSet fs ref).isNone then some (.missingAsset df.rel ref)
    else none))

-- ------------------- manifest (data_guard.py:352-386) -------------------

structure ManifestDataEntry where
  id : Option String
  type : String
  path : String
  sha256 : String
  deps : List String
  hasSchema : Bool
  schema : Option String

structure ManifestAssetEntry where
  path : String
  sha256 : String
  sizeBytes : Nat

structure Manifest where
  generatedAtUtc : String
  root : String
  data : List ManifestDataEntry
  assets : List ManifestAssetEntry
  dataFilesCount : Nat
  assetsCount : Nat
  types : List (String × Nat)

/-- The manifest sort key (data_guard.py:366): `(d.type_guess, d.id or d.rel)`
— Python `or` takes the path when the id is absent OR the empty string. -/
def dfSortKey (df : DataFile) : String × String :=
  (df.typeGuess, match df.id with
    | some s => if s = "" then df.rel else s
    | none => df.rel)

/-- Python tuple-of-strings `≤`. -/
def strPairLe (a b : String × String) : Bool :=
  strLt a.1 b.1 || (a.1 == b.1 && strLe a.2 b.2)

def dfLe (a b : DataFile) : Prop := strPairLe (dfSortKey a) (dfSortKey b) = true

instance : DecidableRel dfLe := fun _ _ => instDecidableEqBool _ _

/-- Python `Path` ordering: lexicographic on the parts tuple. -/
def partsLe : List String → List String → Bool
  | [], _ => true
  | _ :: _, [] => false
  | a :: as, b :: bs =>
      if strLt a b then true else if strLt b a then false else partsLe as bs

def assetLe (a b : AssetFile) : Prop := partsLe a.parts b.parts = true

instance : DecidableRel assetLe := fun _ _ => instDecidableEqBool _ _

/-- One record entry (data_guard.py:356-367). `has_schema` is
`bool(df.schema)`: false also for an empty-string schema. -/
def mkDataEntry (df : DataFile) : ManifestDataEntry :=
  { id := df.id
    type := df.typeGuess
    path := df.rel
    sha256 := df.sha256
    deps := sortedDedup df.deps
    hasSchema := match df.schema with | some s => s ≠ "" | none => false
    schema := df.schema }

def mkAssetEntry (a : AssetFile) : ManifestAssetEntry :=
  { path := partsPosix a.parts
    sha256 := sha256_of_file a.bytes
    sizeBytes := a.sizeBytes }

/-- The stats map `dict(sorted(Counter(df.type_guess for df in datafiles).items()))`. -/
def typeStats (dfs : List DataFile) : List (String × Nat) :=
  (sortedDedup (dfs.map (fun df => df.typeGuess))).map
    (fun t => (t, dfs.countP (fun df => df.typeGuess == t)))

/-- The manifest value (data_guard.py:352-381). -/
def buildManifest (generatedAt rootStr : String) (dfs : List DataFile)
    (assets : List AssetFile) : Manifest :=
  { generatedAtUtc := generatedAt
    root := rootStr
    data := (List.insertionSort dfLe dfs).map mkDataEntry
    assets := (List.insertionSort assetLe assets).map mkAssetEntry
    dataFilesCount := dfs.length
    assetsCount := assets.length
    types := typeStats dfs }

def optStrJson : Option String → Json
  | none => .null
  | some s => .str s

/-- The manifest as the JSON value `json.dump` receives (data_guard.py:352-386). -/
def manifestJson (m : Manifest) : Json :=
  .obj [("generated_at_utc", .str m.generatedAtUtc),
        ("root", .str m.root),
        ("data", .arr (m.data.map (fun e =>
          .obj [("id", optStrJson e.id), ("type", .str e.type),
                ("path", .str e.path), ("sha256", .str e.sha256),
                ("deps", .arr (e.deps.map Json.str)),
                ("has_schema", .bool e.hasSchema),
                ("schema", optStrJson e.schema)]))),
        ("assets", .arr (m.assets.map (fun a =>
          .obj [("path", .str a.path), ("sha256", .str a.sha256),
                ("size_bytes", .num a.sizeBytes)]))),
        ("stats", .obj [("data_files", .num m.dataFilesCount),
                        ("assets", .num m.assetsCount),
                        ("types", .obj (m.types.map (fun p => (p.1, Json.num p.2))))])]

/-- The bytes written to the manifest file (data_guard.py:384-386):
`json.dump(..., ensure_ascii=False, indent=2)` plus a trailing newline. -/
def manifestBytes (m : Manifest) : String := dumpJson 0 (manifestJson m) ++ "\n"

-- ------------------- the full pipeline -------------------

/-- The inputs `analyze` draws from its environment: whether `<root>/data`
exists, the discovered JSON files in `rglob` enumeration order, the
discovered assets, the filesystem oracles for `resolve_asset`, the two
flags, the `datetime.utcnow()` rendering and `str(root)` that are embedded
into the manifest. `jsonschema` is not installed (the stdlib-only default
documented in the module docstring), so schema validation degrades to one
capability warning per schema-declaring record. -/
structure AnalyzeInput where
  dataDirExists : Bool
  files : List RawFile
  assets : List AssetFile
  fs : FileSys
  doFix : Bool
  failOnWarning : Bool
  generatedAt : String
  rootStr : String

structure AnalyzeResult where
  exitCode : Nat
  manifestWritten : Bool
  manifest : Option Manifest
  errors : List Finding
  warnings : List Finding
  datafiles : List DataFile
  idIndex : List (String × String)
  idDups : List (String × Nat)
  rewritten : List String

/-- Embedding of `try_schema_validate` (data_guard.py:179-215) with `jsonschema`
unavailable: one warning per record that declares a schema. -/
def schemaPhase (dfs : List DataFile) : List Finding :=
  dfs.filterMap (fun df =>
    match df.schema with
    | some _ => some (.schemaValidatorUnavailable df.rel)
    | none => none)

/-- The aggregation phases of `analyze` after the per-file loop
(data_guard.py:309-437), over the loop's final state. -/
def analyzeCore (inp : AnalyzeInput) (st : LoopState) : AnalyzeResult :=
  let assetSet := inp.assets.map (fun a => partsPosix a.parts)
  let errs2 := dupErrors st.idIndex st.idDups
  let known := st.idIndex.map Prod.fst
  let errs3 := (collectUnresolved known st.datafiles).map
    (fun p => Finding.unresolvedRefs p.1 (sortedDedup p.2))
  let warns2 := assetWarnings assetSet inp.fs st.datafiles
  let manifest := buildManifest inp.generatedAt inp.rootStr st.datafiles inp.assets
  let warns3 := schemaPhase st.datafiles
  let errors := st.errors ++ errs2 ++ errs3
  let warnings := st.warnings ++ warns2 ++ warns3
  { exitCode :=
      if errors ≠ [] then 1
      else if inp.failOnWarning ∧ warnings ≠ [] then 1
      else 0
    manifestWritten := true
    manifest := some manifest
    errors := errors
    warnings := warnings
    datafiles := st.datafiles
    idIndex := st.idIndex
    idDups := st.idDups
    rewritten := st.rewritten }

/-- Embedding of `analyze` (data_guard.py:240-437). -/
def analyze (inp : AnalyzeInput) : AnalyzeResult :=
  if ¬ inp.dataDirExists then
    { exitCode := 1, manifestWritten := false, manifest := none,
      errors := [.dataDirMissing], warnings := [],
      datafiles := [], idIndex := [], idDups := [], rewritten := [] }
  else
    analyzeCore inp (inp.files.foldl (processFile inp.doFix)
      ⟨[], [], [], [], [], if inp.files.isEmpty then [.noJsonFiles] else []⟩)

/-- A parsed test file with no bytes. -/
def egFile (rel : String) (ms : List (String × Json)) : RawFile := ⟨rel, [], some ms⟩

/-- A test environment: data dir present, no assets, nothing on disk. -/
def egInput (files : List RawFile) : AnalyzeInput :=
  ⟨true, files, [], ⟨fun _ => false, fun _ => false⟩, false, false, "T", "/repo"⟩

-- ------------------- loop characterization -------------------

/-- Parse-phase errors contributed by one file. -/
def fileErrors (f : RawFile) : List Finding :=
  match parseFile f with
  | none => [.parseFailed f.rel]
  | some content => jidErrors content f.rel

def fileWarnings (f : RawFile) : List Finding :=
  match parseFile f with
  | none => []
  | some content => schemaWarnings content f.rel

def dfIndexStep (acc : List (String × String) × List (String × Nat)) (df : DataFile) :
    List (String × String) × List (String × Nat) :=
  indexStep acc.1 acc.2 df.id df.rel

-- ------------------- analyze field characterization -------------------

def finalIndex (files : List RawFile) : List (String × String) × List (String × Nat) :=
  (files.filterMap dfOf?).foldl dfIndexStep ([], [])

def unresolvedErrors (files : List RawFile) : List Finding :=
  (collectUnresolved ((finalIndex files).1.map Prod.fst) (files.filterMap dfOf?)).map
    (fun p => .unresolvedRefs p.1 (sortedDedup p.2))

def analysisErrors (files : List RawFile) : List Finding :=
  files.flatMap fileErrors ++ dupErrors (finalIndex files).1 (finalIndex files).2 ++
    unresolvedErrors files

def analysisWarnings (inp : AnalyzeInput) : List Finding :=
  (if inp.files.isEmpty then [.noJsonFiles] else []) ++
    inp.files.flatMap fileWarnings ++
    assetWarnings (inp.assets.map (fun a => partsPosix a.parts)) inp.fs
      (inp.files.filterMap dfOf?) ++
    schemaPhase (inp.files.filterMap dfOf?)

def inpW7 : AnalyzeInput :=
  egInput [⟨"data/bad.json", [], none⟩, egFile "data/good.json" [("id", Json.str "g")]]

def c10inp : AnalyzeInput := egInput [egFile "data/a.json" [("id", Json.str "")]]

-- ------------------- C4 support -------------------

/-- A path resolves at one location: via the collected asset set, or via a
direct filesystem probe with a recognized extension. -/
def candMatch (assetSet : List String) (fs : FileSys) (p : String) : Bool :=
  decide (p ∈ assetSet) || (fs.fsExists p && fs.fsIsFile p && hasAssetExt p)

def isMissingAssetFor (rel ref : String) : Finding → Bool
  | .missingAsset r rf => r == rel && rf == ref
  | _ => false

def c4file : RawFile := egFile "data/a.json" [("icon", Json.str "textures/missing.png")]

def c4inp : AnalyzeInput := egInput [c4file]

def c4df : DataFile := mkDf c4file [("icon", Json.str "textures/missing.png")]

def isUnresolvedFor (rel : String) : Finding → Bool
  | .unresolvedRefs r _ => r == rel
  | _ => false

-- ------------------- C2 support -------------------

def c3file : RawFile := egFile "data/w3.json" [("target_id", Json.str "potion_missing")]

def c3inp : AnalyzeInput := egInput [c3file]

def c3df : DataFile := mkDf c3file [("target_id", Json.str "potion_missing")]

def natOf (o : Option Nat) : Nat := o.getD 0

def isDupIdFor (s : String) : Finding → Bool
  | .dupId i _ _ => i == s
  | _ => false

def c2inp : AnalyzeInput := egInput [egFile "data/b.json" [("id", Json.str "x")],
  egFile "data/a.json" [("id", Json.str "x")]]

def c1fileA : RawFile := egFile "data/a.json" [("id", Json.str "a1")]

def c1fileB : RawFile := egFile "data/t/b.json" [("id", Json.str "b1")]

def c1inpA : AnalyzeInput :=
  ⟨true, [c1fileA, c1fileB], [], ⟨fun _ => false, fun _ => false⟩, false, false,
    "2024-01-01T00:00:00Z", "/r"⟩

def c1inpB : AnalyzeInput :=
  ⟨true, [c1fileB, c1fileA], [], ⟨fun _ => false, fun _ => false⟩, false, false,
    "2024-01-01T00:00:00Z", "/r"⟩

mutual
theorem loadStrict_ok_eq : ∀ j j', loadStrict j = .ok j' → j' = j
  | .null, _, h => by simpa [loadStrict] using h.symm
  | .bool b, _, h => by simpa [loadStrict] using h.symm
  | .num n, _, h => by simpa [loadStrict] using h.symm
  | .str s, _, h => by simpa [loadStrict] using h.symm
  | .arr es, j', h => by
      cases he : loadList es with
      | ok l =>
          simp only [loadStrict, he] at h
          cases h
          rw [loadList_ok_eq es l he]
      | error e => simp only [loadStrict, he] at h; cases h
  | .obj ms, j', h => by
      cases he : loadPairs ms with
      | ok l =>
          simp only [loadStrict, he] at h
          by_cases hd : dupsOf [] (l.map Prod.fst) = []
          · rw [if_pos hd] at h
            cases h
            rw [loadPairs_ok_eq ms l he]
          · rw [if_neg hd] at h; cases h
      | error e => simp only [loadStrict, he] at h; cases h

theorem loadList_ok_eq : ∀ es l, loadList es = .ok l → l = es
  | [], l, h => by simpa [loadList] using h.symm
  | x :: xs, l, h => by
      cases h1 : loadStrict x with
      | ok y =>
          cases h2 : loadList xs with
          | ok t =>
              simp only [loadList, h1, h2] at h
              cases h
              rw [loadStrict_ok_eq x y h1, loadList_ok_eq xs t h2]
          | error e => simp only [loadList, h1, h2] at h; cases h
      | error e => simp only [loadList, h1] at h; cases h

theorem loadPairs_ok_eq : ∀ xs l, loadPairs xs = .ok l → l = xs
  | [], l, h => by simpa [loadPairs] using h.symm
  | (k, v) :: xs, l, h => by
      cases h1 : loadStrict v with
      | ok y =>
          cases h2 : loadPairs xs with
          | ok t =>
              simp only [loadPairs, h1, h2] at h
              cases h
              rw [loadStrict_ok_eq v y h1, loadPairs_ok_eq xs t h2]
          | error e => simp only [loadPairs, h1, h2] at h; cases h
      | error e => simp only [loadPairs, h1] at h; cases h
end

mutual
theorem loadStrict_isOk_iff : ∀ j, (loadStrict j).isOk = noLocalDup j
  | .null => by simp [loadStrict, noLocalDup, Except.isOk, Except.toBool]
  | .bool b => by simp [loadStrict, noLocalDup, Except.isOk, Except.toBool]
  | .num n => by simp [loadStrict, noLocalDup, Except.isOk, Except.toBool]
  | .str s => by simp [loadStrict, noLocalDup, Except.isOk, Except.toBool]
  | .arr es => by
      have h := loadList_isOk_iff es
      cases he : loadList es with
      | ok l => simp_all [loadStrict, noLocalDup, he, Except.isOk, Except.toBool]
      | error e => simp_all [loadStrict, noLocalDup, he, Except.isOk, Except.toBool]
  | .obj ms => by
      have h := loadPairs_isOk_iff ms
      cases he : loadPairs ms with
      | ok l =>
          have hl : l = ms := loadPairs_ok_eq ms l he
          subst hl
          by_cases hd : dupsOf [] (l.map Prod.fst) = []
          · simp_all [loadStrict, noLocalDup, he, Except.isOk, Except.toBool,
              List.isEmpty_iff]
          · simp_all [loadStrict, noLocalDup, he, Except.isOk, Except.toBool,
              List.isEmpty_iff]
      | error e =>
          simp_all [loadStrict, noLocalDup, he, Except.isOk, Except.toBool,
            List.isEmpty_iff]

theorem loadList_isOk_iff : ∀ es, (loadList es).isOk = noLocalDupList es
  | [] => by simp [loadList, noLocalDupList, Except.isOk, Except.toBool]
  | x :: xs => by
      have h1 := loadStrict_isOk_iff x
      have h2 := loadList_isOk_iff xs
      cases he : loadStrict x with
      | ok y => cases he2 : loadList xs with
        | ok t => simp_all [loadList, noLocalDupList, Except.isOk, Except.toBool]
        | error e => simp_all [loadList, noLocalDupList, Except.isOk, Except.toBool]
      | error e => simp_all [loadList, noLocalDupList, Except.isOk, Except.toBool]

theorem loadPairs_isOk_iff : ∀ xs, (loadPairs xs).isOk = noLocalDupPairs xs
  | [] => by simp [loadPairs, noLocalDupPairs, Except.isOk, Except.toBool]
  | (k, v) :: xs => by
      have h1 := loadStrict_isOk_iff v
      have h2 := loadPairs_isOk_iff xs
      cases he : loadStrict v with
      | ok y => cases he2 : loadPairs xs with
        | ok t => simp_all [loadPairs, noLocalDupPairs, Except.isOk, Except.toBool]
        | error e => simp_all [loadPairs, noLocalDupPairs, Except.isOk, Except.toBool]
      | error e => simp_all [loadPairs, noLocalDupPairs, Except.isOk, Except.toBool]
end

theorem mem_dupsOf {k : String} : ∀ (seen ks : List String), k ∈ dupsOf seen ks →
    2 ≤ ks.count k + (if k ∈ seen then 1 else 0)
  | seen, [], h => by simp [dupsOf] at h
  | seen, k' :: ks, h => by
      by_cases hm : k' ∈ seen
      · rw [dupsOf, if_pos hm] at h
        rcases List.mem_cons.mp h with rfl | h
        · rw [List.count_cons_self, if_pos hm]
          omega
        · have ih := mem_dupsOf seen ks h
          have hc : ks.count k ≤ (k' :: ks).count k := by
            rw [List.count_cons]; omega
          by_cases hs : k ∈ seen
          · rw [if_pos hs] at ih ⊢; omega
          · rw [if_neg hs] at ih ⊢; omega
      · rw [dupsOf, if_neg hm] at h
        have ih := mem_dupsOf (k' :: seen) ks h
        by_cases hk : k = k'
        · subst hk
          rw [if_pos (List.mem_cons_self k seen)] at ih
          rw [List.count_cons_self, if_neg hm]
          omega
        · rw [List.count_cons_of_ne hk]
          by_cases hs : k ∈ seen
          · rw [if_pos hs]
            rw [if_pos (List.mem_cons.mpr (Or.inr hs))] at ih
            exact ih
          · rw [if_neg hs]
            rw [if_neg (by simp [List.mem_cons, hk, hs])] at ih
            exact ih

theorem dupsOf_eq_nil_iff : ∀ (seen ks : List String),
    dupsOf seen ks = [] ↔ ks.Nodup ∧ ∀ k ∈ ks, k ∉ seen
  | seen, [] => by simp [dupsOf]
  | seen, k' :: ks => by
      by_cases hm : k' ∈ seen
      · rw [dupsOf, if_pos hm]
        constructor
        · intro h; cases h
        · rintro ⟨-, hall⟩
          exact absurd hm (hall k' (List.mem_cons_self k' ks))
      · rw [dupsOf, if_neg hm, dupsOf_eq_nil_iff (k' :: seen) ks]
        constructor
        · rintro ⟨hnd, hall⟩
          refine ⟨List.nodup_cons.mpr ⟨fun hk => hall k' hk (List.mem_cons_self k' seen), hnd⟩, ?_⟩
          intro k hk
          rcases List.mem_cons.mp hk with rfl | hk2
          · exact hm
          · exact fun hs => hall k hk2 (List.mem_cons.mpr (Or.inr hs))
        · rintro ⟨hnd, hall⟩
          obtain ⟨hk', hnd2⟩ := List.nodup_cons.mp hnd
          refine ⟨hnd2, fun k hk hs => ?_⟩
          rcases List.mem_cons.mp hs with rfl | hs2
          · exact hk' hk
          · exact hall k (List.mem_cons.mpr (Or.inr hk)) hs2

mutual
theorem loadStrict_error_mem : ∀ j ks, loadStrict j = .error ks →
    ks ≠ [] ∧ ∀ k ∈ ks, ∃ ms ∈ scopes j, 2 ≤ (ms.map Prod.fst).count k
  | .null, ks, h => by simp [loadStrict] at h
  | .bool b, ks, h => by simp [loadStrict] at h
  | .num n, ks, h => by simp [loadStrict] at h
  | .str s, ks, h => by simp [loadStrict] at h
  | .arr es, ks, h => by
      cases he : loadList es with
      | ok l => simp only [loadStrict, he] at h; cases h
      | error e =>
          simp only [loadStrict, he] at h
          cases h
          simpa [scopes] using loadList_error_mem es ks he
  | .obj ms, ks, h => by
      cases he : loadPairs ms with
      | ok l =>
          have hl : l = ms := loadPairs_ok_eq ms l he
          subst hl
          simp only [loadStrict, he] at h
          by_cases hd : dupsOf [] (l.map Prod.fst) = []
          · rw [if_pos hd] at h; cases h
          · rw [if_neg hd] at h
            cases h
            refine ⟨hd, fun k hk => ?_⟩
            refine ⟨l, List.mem_cons_self l (scopesPairs l), ?_⟩
            have := mem_dupsOf [] (l.map Prod.fst) hk
            simpa using this
      | error e =>
          simp only [loadStrict, he] at h
          cases h
          obtain ⟨hne, hall⟩ := loadPairs_error_mem ms ks he
          refine ⟨hne, fun k hk => ?_⟩
          obtain ⟨sc, hsc, hcnt⟩ := hall k hk
          exact ⟨sc, List.mem_cons.mpr (Or.inr hsc), hcnt⟩

theorem loadList_error_mem : ∀ es ks, loadList es = .error ks →
    ks ≠ [] ∧ ∀ k ∈ ks, ∃ ms ∈ scopesList es, 2 ≤ (ms.map Prod.fst).count k
  | [], ks, h => by simp [loadList] at h
  | x :: xs, ks, h => by
      cases h1 : loadStrict x with
      | ok y =>
          cases h2 : loadList xs with
          | ok t => simp only [loadList, h1, h2] at h; cases h
          | error e =>
              simp only [loadList, h1, h2] at h
              cases h
              obtain ⟨hne, hall⟩ := loadList_error_mem xs ks h2
              refine ⟨hne, fun k hk => ?_⟩
              obtain ⟨sc, hsc, hcnt⟩ := hall k hk
              exact ⟨sc, by simp [scopesList, hsc], hcnt⟩
      | error e =>
          simp only [loadList, h1] at h
          cases h
          obtain ⟨hne, hall⟩ := loadStrict_error_mem x ks h1
          refine ⟨hne, fun k hk => ?_⟩
          obtain ⟨sc, hsc, hcnt⟩ := hall k hk
          exact ⟨sc, by simp [scopesList, hsc], hcnt⟩

theorem loadPairs_error_mem : ∀ xs ks, loadPairs xs = .error ks →
    ks ≠ [] ∧ ∀ k ∈ ks, ∃ ms ∈ scopesPairs xs, 2 ≤ (ms.map Prod.fst).count k
  | [], ks, h => by simp [loadPairs] at h
  | (key, v) :: xs, ks, h => by
      cases h1 : loadStrict v with
      | ok y =>
          cases h2 : loadPairs xs with
          | ok t => simp only [loadPairs, h1, h2] at h; cases h
          | error e =>
              simp only [loadPairs, h1, h2] at h
              cases h
              obtain ⟨hne, hall⟩ := loadPairs_error_mem xs ks h2
              refine ⟨hne, fun k hk => ?_⟩
              obtain ⟨sc, hsc, hcnt⟩ := hall k hk
              exact ⟨sc, by simp [scopesPairs, hsc], hcnt⟩
      | error e =>
          simp only [loadPairs, h1] at h
          cases h
          obtain ⟨hne, hall⟩ := loadStrict_error_mem v ks h1
          refine ⟨hne, fun k hk => ?_⟩
          obtain ⟨sc, hsc, hcnt⟩ := hall k hk
          exact ⟨sc, by simp [scopesPairs, hsc], hcnt⟩
end

mutual
theorem noLocalDup_iff_scopes : ∀ j, noLocalDup j = true ↔
    ∀ ms ∈ scopes j, (ms.map Prod.fst).Nodup
  | .null => by simp [noLocalDup, scopes]
  | .bool b => by simp [noLocalDup, scopes]
  | .num n => by simp [noLocalDup, scopes]
  | .str s => by simp [noLocalDup, scopes]
  | .arr es => by
      rw [noLocalDup, noLocalDupList_iff_scopes es]
      simp [scopes]
  | .obj ms => by
      rw [noLocalDup, Bool.and_eq_true, noLocalDupPairs_iff_scopes ms]
      rw [List.isEmpty_iff, dupsOf_eq_nil_iff]
      simp only [scopes, List.mem_cons]
      constructor
      · rintro ⟨⟨hnd, -⟩, hall⟩ sc (rfl | hsc)
        · exact hnd
        · exact hall sc hsc
      · intro hall
        exact ⟨⟨hall ms (Or.inl rfl), by simp⟩, fun sc hsc => hall sc (Or.inr hsc)⟩

theorem noLocalDupList_iff_scopes : ∀ es, noLocalDupList es = true ↔
    ∀ ms ∈ scopesList es, (ms.map Prod.fst).Nodup
  | [] => by simp [noLocalDupList, scopesList]
  | x :: xs => by
      rw [noLocalDupList, Bool.and_eq_true, noLocalDup_iff_scopes x,
        noLocalDupList_iff_scopes xs]
      simp only [scopesList, List.mem_append]
      constructor
      · rintro ⟨h1, h2⟩ sc (hsc | hsc)
        · exact h1 sc hsc
        · exact h2 sc hsc
      · intro hall
        exact ⟨fun sc hsc => hall sc (Or.inl hsc), fun sc hsc => hall sc (Or.inr hsc)⟩

theorem noLocalDupPairs_iff_scopes : ∀ xs, noLocalDupPairs xs = true ↔
    ∀ ms ∈ scopesPairs xs, (ms.map Prod.fst).Nodup
  | [] => by simp [noLocalDupPairs, scopesPairs]
  | (k, v) :: xs => by
      rw [noLocalDupPairs, Bool.and_eq_true, noLocalDup_iff_scopes v,
        noLocalDupPairs_iff_scopes xs]
      simp only [scopesPairs, List.mem_append]
      constructor
      · rintro ⟨h1, h2⟩ sc (hsc | hsc)
        · exact h1 sc hsc
        · exact h2 sc hsc
      · intro hall
        exact ⟨fun sc hsc => hall sc (Or.inl hsc), fun sc hsc => hall sc (Or.inr hsc)⟩
end

/-- C5: loading fails with a duplicate-key error naming the colliding keys
exactly when some single object scope repeats a key; detection is local to
each nesting level. -/
theorem C5_duplicate_keys_local (j : Json) :
    ((∃ ks, loadStrict j = Except.error ks) ↔
      ∃ ms ∈ scopes j, ∃ k, 2 ≤ (ms.map Prod.fst).count k) ∧
    (∀ ks, loadStrict j = Except.error ks →
      ks ≠ [] ∧ ∀ k ∈ ks, ∃ ms ∈ scopes j, 2 ≤ (ms.map Prod.fst).count k) := by
  refine ⟨⟨?_, ?_⟩, loadStrict_error_mem j⟩
  · rintro ⟨ks, h⟩
    obtain ⟨hne, hall⟩ := loadStrict_error_mem j ks h
    obtain ⟨k, hk⟩ := List.exists_mem_of_ne_nil ks hne
    obtain ⟨ms, hms, hcnt⟩ := hall k hk
    exact ⟨ms, hms, k, hcnt⟩
  · rintro ⟨ms, hms, k, hcnt⟩
    have hnd : ¬ (ms.map Prod.fst).Nodup := by
      rw [List.nodup_iff_count_le_one]
      intro h
      have := h k
      omega
    have hfail : noLocalDup j = false := by
      by_contra h
      have h2 := (noLocalDup_iff_scopes j).mp (by
        cases hb : noLocalDup j
        · exact absurd hb h
        · rfl)
      exact hnd (h2 ms hms)
    have := loadStrict_isOk_iff j
    rw [hfail] at this
    cases he : loadStrict j with
    | ok v => rw [he] at this; simp [Except.isOk, Except.toBool] at this
    | error e => exact ⟨e, rfl⟩

theorem C5_duplicate_keys_local_witness :
    loadStrict (Json.obj [("a", Json.num 1), ("a", Json.num 2)]) = Except.error ["a"] ∧
    ["a"] ≠ [] ∧ ∀ k ∈ ["a"], ∃ ms ∈ scopes (Json.obj [("a", Json.num 1), ("a", Json.num 2)]),
      2 ≤ (ms.map Prod.fst).count k :=
  ⟨rfl, (C5_duplicate_keys_local (Json.obj [("a", Json.num 1), ("a", Json.num 2)])).2 ["a"] rfl⟩

theorem charLe_cons_lt {a b : Char} (h : a < b) (as bs : List Char) :
    charLe (a :: as) (b :: bs) = true := by simp [charLe, h]

theorem charLe_cons_gt {a b : Char} (h : b < a) (as bs : List Char) :
    charLe (a :: as) (b :: bs) = false := by simp [charLe, h, lt_asymm h]

theorem charLe_cons_eq (a : Char) (as bs : List Char) :
    charLe (a :: as) (a :: bs) = charLe as bs := by simp [charLe]

theorem charLe_total : ∀ as bs, charLe as bs = true ∨ charLe bs as = true
  | [], _ => Or.inl rfl
  | _ :: _, [] => Or.inr rfl
  | a :: as, b :: bs => by
      rcases lt_trichotomy a b with h | h | h
      · left; exact charLe_cons_lt h as bs
      · subst h
        rw [charLe_cons_eq, charLe_cons_eq]
        exact charLe_total as bs
      · right; exact charLe_cons_lt h bs as

theorem charLe_trans : ∀ as bs cs, charLe as bs = true → charLe bs cs = true →
    charLe as cs = true
  | [], _, _, _, _ => rfl
  | a :: as, [], cs, h1, _ => by simp [charLe] at h1
  | a :: as, b :: bs, [], _, h2 => by simp [charLe] at h2
  | a :: as, b :: bs, c :: cs, h1, h2 => by
      rcases lt_trichotomy a b with hab | hab | hab
      · rcases lt_trichotomy b c with hbc | hbc | hbc
        · exact charLe_cons_lt (lt_trans hab hbc) as cs
        · subst hbc; exact charLe_cons_lt hab as cs
        · rw [charLe_cons_gt hbc] at h2; cases h2
      · subst hab
        rcases lt_trichotomy a c with hac | hac | hac
        · exact charLe_cons_lt hac as cs
        · subst hac
          rw [charLe_cons_eq] at h1 h2 ⊢
          exact charLe_trans as bs cs h1 h2
        · rw [charLe_cons_gt hac] at h2; cases h2
      · rw [charLe_cons_gt hab] at h1; cases h1

theorem charLe_antisymm : ∀ as bs, charLe as bs = true → charLe bs as = true → as = bs
  | [], [], _, _ => rfl
  | [], _ :: _, _, h2 => by simp [charLe] at h2
  | _ :: _, [], h1, _ => by simp [charLe] at h1
  | a :: as, b :: bs, h1, h2 => by
      rcases lt_trichotomy a b with hab | hab | hab
      · rw [charLe_cons_gt hab] at h2; cases h2
      · subst hab
        rw [charLe_cons_eq] at h1 h2
        rw [charLe_antisymm as bs h1 h2]
      · rw [charLe_cons_gt hab] at h1; cases h1

theorem strLe_total (a b : String) : strLe a b = true ∨ strLe b a = true :=
  charLe_total a.data b.data

theorem strLe_trans {a b c : String} (h1 : strLe a b = true) (h2 : strLe b c = true) :
    strLe a c = true :=
  charLe_trans a.data b.data c.data h1 h2

theorem strLe_antisymm {a b : String} (h1 : strLe a b = true) (h2 : strLe b a = true) :
    a = b := by
  cases a with | mk da =>
  cases b with | mk db =>
  have hd : da = db := charLe_antisymm da db h1 h2
  rw [hd]

-- ------------------- sorted-permutation uniqueness -------------------

theorem perm_pairwise_eq {α : Type} {r : α → α → Prop} :
    ∀ (l₁ l₂ : List α), l₁.Perm l₂ → l₁.Pairwise r → l₂.Pairwise r →
      (∀ a ∈ l₁, ∀ b ∈ l₁, r a b → r b a → a = b) → l₁ = l₂
  | [], l₂, hp, _, _, _ => hp.nil_eq
  | a :: t₁, [], hp, _, _, _ => by
      have := hp.symm.nil_eq
      cases this
  | a :: t₁, b :: t₂, hp, h₁, h₂, hanti => by
      have hab : a = b := by
        have ha2 : a ∈ b :: t₂ := hp.subset (List.mem_cons_self a t₁)
        rcases List.mem_cons.mp ha2 with h | h
        · exact h
        · have hba : r b a := (List.pairwise_cons.mp h₂).1 a h
          have hb1 : b ∈ a :: t₁ := hp.symm.subset (List.mem_cons_self b t₂)
          rcases List.mem_cons.mp hb1 with h' | h'
          · exact h'.symm
          · have hab2 : r a b := (List.pairwise_cons.mp h₁).1 b h'
            exact hanti a (List.mem_cons_self a t₁) b (List.mem_cons.mpr (Or.inr h')) hab2 hba
      subst hab
      have htp : t₁.Perm t₂ := hp.cons_inv
      have := perm_pairwise_eq t₁ t₂ htp (List.pairwise_cons.mp h₁).2
        (List.pairwise_cons.mp h₂).2
        (fun x hx y hy hxy hyx =>
          hanti x (List.mem_cons.mpr (Or.inr hx)) y (List.mem_cons.mpr (Or.inr hy)) hxy hyx)
      rw [this]

/-- Distinct keys make members determined by their key. -/
theorem pairs_key_inj {β : Type} :
    ∀ (l : List (String × β)), (l.map Prod.fst).Nodup →
      ∀ p ∈ l, ∀ q ∈ l, p.1 = q.1 → p = q
  | [], _, p, hp, _, _, _ => by cases hp
  | a :: t, hnd, p, hp, q, hq, hpq => by
      rw [List.map_cons, List.nodup_cons] at hnd
      rcases List.mem_cons.mp hp with rfl | hp2
      · rcases List.mem_cons.mp hq with rfl | hq2
        · rfl
        · exact absurd (hpq ▸ List.mem_map_of_mem Prod.fst hq2) hnd.1
      · rcases List.mem_cons.mp hq with rfl | hq2
        · exact absurd (hpq ▸ List.mem_map_of_mem Prod.fst hp2) hnd.1
        · exact pairs_key_inj t hnd.2 p hp2 q hq2 hpq

-- ------------------- idLe order facts -------------------

theorem idLe_total (a b : String) : idLe a b = true ∨ idLe b a = true := by
  unfold idLe
  by_cases ha : a = "id" <;> by_cases hb : b = "id" <;>
    simp [ha, hb, strLe_total a b]

theorem idLe_trans {a b c : String} (h1 : idLe a b = true) (h2 : idLe b c = true) :
    idLe a c = true := by
  unfold idLe at h1 h2 ⊢
  by_cases ha : a = "id"
  · simp [ha]
  · by_cases hb : b = "id"
    · simp [ha, hb] at h1
    · by_cases hc : c = "id"
      · simp [hb, hc] at h2
      · simp [ha, hb, hc] at h1 h2 ⊢
        exact strLe_trans h1 h2


@[instance] theorem keyRel_isTotal : IsTotal (String × Json) keyRel :=
  ⟨fun p q => strLe_total p.1 q.1⟩

@[instance] theorem keyRel_isTrans : IsTrans (String × Json) keyRel :=
  ⟨fun _ _ _ => strLe_trans⟩

@[instance] theorem idKeyRel_isTotal : IsTotal (String × Json) idKeyRel :=
  ⟨fun p q => idLe_total p.1 q.1⟩

@[instance] theorem idKeyRel_isTrans : IsTrans (String × Json) idKeyRel :=
  ⟨fun _ _ _ => idLe_trans⟩
theorem idLe_antisymm {a b : String} (h1 : idLe a b = true) (h2 : idLe b a = true) :
    a = b := by
  unfold idLe at h1 h2
  by_cases ha : a = "id"
  · by_cases hb : b = "id"
    · rw [ha, hb]
    · simp [ha, hb] at h2
  · by_cases hb : b = "id"
    · simp [ha, hb] at h1
    · simp [ha, hb] at h1 h2
      exact strLe_antisymm h1 h2

-- ------------------- hoistId properties -------------------

theorem find?_eraseP_perm {α : Type} (pred : α → Bool) :
    ∀ (l : List α) (p : α), l.find? pred = some p → l.Perm (p :: l.eraseP pred)
  | [], p, h => by simp at h
  | a :: t, p, h => by
      by_cases hp : pred a = true
      · rw [List.find?_cons_of_pos t hp] at h
        cases h
        rw [List.eraseP_cons_of_pos hp]
      · rw [List.find?_cons_of_neg t hp] at h
        rw [List.eraseP_cons_of_neg hp]
        have ih := find?_eraseP_perm pred t p h
        exact (ih.cons a).trans (List.Perm.swap p a _)

theorem hoistId_perm (l : List (String × Json)) : (hoistId l).Perm l := by
  have hs : (List.insertionSort keyRel l).Perm l := List.perm_insertionSort keyRel l
  cases hf : (List.insertionSort keyRel l).find? (fun p => p.1 == "id") with
  | none => simp only [hoistId, hf]; exact hs
  | some p =>
      simp only [hoistId, hf]
      exact ((find?_eraseP_perm _ _ p hf).symm).trans hs

theorem hoistId_pairwise (l : List (String × Json))
    (hnd : (l.map Prod.fst).Nodup) : (hoistId l).Pairwise idKeyRel := by
  have hs : (List.insertionSort keyRel l).Pairwise keyRel :=
    List.sorted_insertionSort keyRel l
  have hndk : ((List.insertionSort keyRel l).map Prod.fst).Nodup :=
    ((List.perm_insertionSort keyRel l).map Prod.fst).nodup_iff.mpr hnd
  cases hf : (List.insertionSort keyRel l).find? (fun p => p.1 == "id") with
  | none =>
      simp only [hoistId, hf]
      rw [List.find?_eq_none] at hf
      refine hs.imp_of_mem ?_
      intro p q hp hq hpq
      have hpid : ¬ p.1 = "id" := by
        have := hf p hp
        simpa using this
      have hqid : ¬ q.1 = "id" := by
        have := hf q hq
        simpa using this
      unfold idKeyRel
      unfold keyRel at hpq
      rw [idLe, if_neg hpid, if_neg hqid]
      exact hpq
  | some p =>
      simp only [hoistId, hf]
      have hpid : p.1 = "id" := by
        have := List.find?_some hf
        simpa using this
      have hperm : (List.insertionSort keyRel l).Perm
          (p :: (List.insertionSort keyRel l).eraseP (fun q => q.1 == "id")) :=
        find?_eraseP_perm _ _ p hf
      have hndk2 : ((p :: (List.insertionSort keyRel l).eraseP (fun q => q.1 == "id")).map
          Prod.fst).Nodup := (hperm.map Prod.fst).nodup_iff.mp hndk
      rw [List.map_cons, List.nodup_cons] at hndk2
      have hrest : ∀ q ∈ (List.insertionSort keyRel l).eraseP (fun q => q.1 == "id"),
          ¬ q.1 = "id" := by
        intro q hq hqid
        exact hndk2.1 (by
          rw [← hpid] at hqid
          exact hqid ▸ List.mem_map_of_mem Prod.fst hq)
      refine List.pairwise_cons.mpr ⟨?_, ?_⟩
      · intro q hq
        unfold idKeyRel
        rw [hpid, idLe, if_pos rfl]
      · have hsub : ((List.insertionSort keyRel l).eraseP
            (fun q => q.1 == "id")).Sublist (List.insertionSort keyRel l) :=
          List.eraseP_sublist _
        have := hs.sublist hsub
        refine this.imp_of_mem ?_
        intro x y hx hy hxy
        unfold idKeyRel
        unfold keyRel at hxy
        rw [idLe, if_neg (hrest x hx), if_neg (hrest y hy)]
        exact hxy

theorem hoistId_of_pairwise (l : List (String × Json))
    (hnd : (l.map Prod.fst).Nodup) (hp : l.Pairwise idKeyRel) : hoistId l = l := by
  refine perm_pairwise_eq _ _ (hoistId_perm l) (hoistId_pairwise l hnd) hp ?_
  intro a ha b hb hab hba
  have hperm := (hoistId_perm l).map Prod.fst
  have hndh : ((hoistId l).map Prod.fst).Nodup := hperm.nodup_iff.mpr hnd
  exact pairs_key_inj _ hndh a ha b hb (idLe_antisymm hab hba)

-- ------------------- sortKeysFun / hoistId commutation -------------------

theorem sortPairsVals_eq_map : ∀ l : List (String × Json),
    sortPairsVals l = l.map (fun p => (p.1, sortKeysFun p.2))
  | [] => rfl
  | (k, v) :: xs => by
      simp only [sortPairsVals, sortPairsVals_eq_map xs, List.map_cons]

theorem orderedInsert_map_fstPres (f : String × Json → String × Json)
    (hf : ∀ p, (f p).1 = p.1) (a : String × Json) :
    ∀ l, List.orderedInsert keyRel (f a) (l.map f) = (List.orderedInsert keyRel a l).map f
  | [] => rfl
  | b :: t => by
      simp only [List.map_cons, List.orderedInsert]
      by_cases h : keyRel a b
      · rw [if_pos h, if_pos (show keyRel (f a) (f b) by
          unfold keyRel at h ⊢; rw [hf, hf]; exact h)]
        simp
      · rw [if_neg h, if_neg (show ¬ keyRel (f a) (f b) by
          unfold keyRel at h ⊢; rw [hf, hf]; exact h)]
        simp only [List.map_cons, orderedInsert_map_fstPres f hf a t]

theorem insertionSort_map_fstPres (f : String × Json → String × Json)
    (hf : ∀ p, (f p).1 = p.1) :
    ∀ l, List.insertionSort keyRel (l.map f) = (List.insertionSort keyRel l).map f
  | [] => rfl
  | a :: t => by
      simp only [List.map_cons, List.insertionSort, insertionSort_map_fstPres f hf t,
        orderedInsert_map_fstPres f hf a]

theorem find?_map_fstPres (f : String × Json → String × Json)
    (hf : ∀ p, (f p).1 = p.1) :
    ∀ l : List (String × Json),
      (l.map f).find? (fun p => p.1 == "id") = (l.find? (fun p => p.1 == "id")).map f
  | [] => rfl
  | a :: t => by
      simp only [List.map_cons, List.find?]
      rw [hf a]
      by_cases h : (a.1 == "id") = true
      · rw [h]; rfl
      · rw [Bool.not_eq_true] at h
        rw [h]
        exact find?_map_fstPres f hf t

theorem eraseP_map_fstPres (f : String × Json → String × Json)
    (hf : ∀ p, (f p).1 = p.1) :
    ∀ l : List (String × Json),
      (l.map f).eraseP (fun p => p.1 == "id") = (l.eraseP (fun p => p.1 == "id")).map f
  | [] => rfl
  | a :: t => by
      by_cases h : (a.1 == "id") = true
      · simp only [List.map_cons, List.eraseP_cons, hf a, h, cond_true]
      · rw [Bool.not_eq_true] at h
        simp only [List.map_cons, List.eraseP_cons, hf a, h, cond_false,
          eraseP_map_fstPres f hf t]

theorem hoistId_map_fstPres (f : String × Json → String × Json)
    (hf : ∀ p, (f p).1 = p.1) (l : List (String × Json)) :
    hoistId (l.map f) = (hoistId l).map f := by
  cases hfind : (List.insertionSort keyRel l).find? (fun p => p.1 == "id") with
  | none =>
      simp only [hoistId, insertionSort_map_fstPres f hf l, find?_map_fstPres f hf,
        hfind, Option.map_none']
  | some p =>
      simp only [hoistId, insertionSort_map_fstPres f hf l, find?_map_fstPres f hf,
        hfind, Option.map_some']
      rw [eraseP_map_fstPres f hf]
      simp

theorem sortPairsVals_hoistId (l : List (String × Json)) :
    sortPairsVals (hoistId l) = hoistId (sortPairsVals l) := by
  rw [sortPairsVals_eq_map, sortPairsVals_eq_map,
    hoistId_map_fstPres (fun p => (p.1, sortKeysFun p.2)) (fun _ => rfl) l]

theorem sortPairsVals_keys (l : List (String × Json)) :
    (sortPairsVals l).map Prod.fst = l.map Prod.fst := by
  rw [sortPairsVals_eq_map, List.map_map]
  rfl

-- ------------------- idempotence and canonical form -------------------

theorem keysIdSorted_of_pairwise :
    ∀ ks : List String, ks.Pairwise (fun a b => idLe a b = true) → keysIdSorted ks = true
  | [], _ => rfl
  | [_], _ => rfl
  | a :: b :: t, h => by
      rw [keysIdSorted, Bool.and_eq_true]
      obtain ⟨h1, h2⟩ := List.pairwise_cons.mp h
      exact ⟨h1 b (List.mem_cons_self b t), keysIdSorted_of_pairwise (b :: t) h2⟩

theorem idSortedOutsidePairs_iff_mem : ∀ l : List (String × Json),
    idSortedOutsidePairs l = true ↔ ∀ p ∈ l, idSortedOutsideArr p.2 = true
  | [] => by simp [idSortedOutsidePairs]
  | (k, v) :: xs => by
      rw [idSortedOutsidePairs, Bool.and_eq_true, idSortedOutsidePairs_iff_mem xs]
      constructor
      · rintro ⟨h1, h2⟩ p hp
        rcases List.mem_cons.mp hp with rfl | hp2
        · exact h1
        · exact h2 p hp2
      · intro hall
        exact ⟨hall (k, v) (List.mem_cons_self _ xs),
          fun p hp => hall p (List.mem_cons.mpr (Or.inr hp))⟩

theorem noLocalDup_obj_keys {ms : List (String × Json)}
    (h : noLocalDup (Json.obj ms) = true) : (ms.map Prod.fst).Nodup := by
  rw [noLocalDup, Bool.and_eq_true, List.isEmpty_iff] at h
  exact ((dupsOf_eq_nil_iff [] (ms.map Prod.fst)).mp h.1).1

theorem noLocalDup_obj_pairs {ms : List (String × Json)}
    (h : noLocalDup (Json.obj ms) = true) : noLocalDupPairs ms = true := by
  rw [noLocalDup, Bool.and_eq_true] at h
  exact h.2

mutual
theorem sortKeysFun_idem : ∀ j, noLocalDup j = true →
    sortKeysFun (sortKeysFun j) = sortKeysFun j
  | .null, _ => rfl
  | .bool b, _ => rfl
  | .num n, _ => rfl
  | .str s, _ => rfl
  | .arr es, _ => rfl
  | .obj ms, h => by
      have hnd : (ms.map Prod.fst).Nodup := noLocalDup_obj_keys h
      have hndL : ((sortPairsVals ms).map Prod.fst).Nodup := by
        rw [sortPairsVals_keys]; exact hnd
      have hndH : ((hoistId (sortPairsVals ms)).map Prod.fst).Nodup :=
        ((hoistId_perm (sortPairsVals ms)).map Prod.fst).nodup_iff.mpr hndL
      simp only [sortKeysFun]
      rw [sortPairsVals_hoistId, sortPairsVals_idem ms (noLocalDup_obj_pairs h),
        hoistId_of_pairwise _ hndH (hoistId_pairwise _ hndL)]

theorem sortPairsVals_idem : ∀ l, noLocalDupPairs l = true →
    sortPairsVals (sortPairsVals l) = sortPairsVals l
  | [], _ => rfl
  | (k, v) :: xs, h => by
      rw [noLocalDupPairs, Bool.and_eq_true] at h
      simp only [sortPairsVals]
      rw [sortKeysFun_idem v h.1, sortPairsVals_idem xs h.2]
end

mutual
theorem sortKeysFun_outside_sorted : ∀ j, noLocalDup j = true →
    idSortedOutsideArr (sortKeysFun j) = true
  | .null, _ => rfl
  | .bool b, _ => rfl
  | .num n, _ => rfl
  | .str s, _ => rfl
  | .arr es, _ => rfl
  | .obj ms, h => by
      have hnd : (ms.map Prod.fst).Nodup := noLocalDup_obj_keys h
      have hndL : ((sortPairsVals ms).map Prod.fst).Nodup := by
        rw [sortPairsVals_keys]; exact hnd
      simp only [sortKeysFun, idSortedOutsideArr, Bool.and_eq_true]
      constructor
      · refine keysIdSorted_of_pairwise _ ?_
        exact (hoistId_pairwise _ hndL).map Prod.fst (fun a b hab => hab)
      · rw [idSortedOutsidePairs_iff_mem]
        intro p hp
        have hp2 : p ∈ sortPairsVals ms := (hoistId_perm _).subset hp
        have := (idSortedOutsidePairs_iff_mem (sortPairsVals ms)).mp
          (sortPairsVals_outside_sorted ms (noLocalDup_obj_pairs h))
        exact this p hp2

theorem sortPairsVals_outside_sorted : ∀ l, noLocalDupPairs l = true →
    idSortedOutsidePairs (sortPairsVals l) = true
  | [], _ => rfl
  | (k, v) :: xs, h => by
      rw [noLocalDupPairs, Bool.and_eq_true] at h
      simp only [sortPairsVals, idSortedOutsidePairs, Bool.and_eq_true]
      exact ⟨sortKeysFun_outside_sorted v h.1, sortPairsVals_outside_sorted xs h.2⟩
end

/-- C8 (amended): for every successfully parsed document (hence no duplicate
keys in any scope), the canonical rewrite is idempotent — a second rewrite of
the canonical tree produces the identical tree and byte-identical file
contents — and every object scope not nested inside an array has its keys
sorted with `id` hoisted first. (Objects inside arrays are NOT canonicalized:
see the counterexample.) -/
theorem C8_canonical_rewrite_idempotent (j : Json) (h : noLocalDup j = true) :
    sortKeysFun (sortKeysFun j) = sortKeysFun j ∧
    stableDumpBytes (sortKeysFun j) = stableDumpBytes j ∧
    idSortedOutsideArr (sortKeysFun j) = true :=
  ⟨sortKeysFun_idem j h,
   by unfold stableDumpBytes; rw [sortKeysFun_idem j h],
   sortKeysFun_outside_sorted j h⟩

theorem C8_canonical_rewrite_idempotent_witness :
    noLocalDup (Json.obj [("b", Json.num 1), ("id", Json.str "x")]) = true ∧
    (sortKeysFun (sortKeysFun (Json.obj [("b", Json.num 1), ("id", Json.str "x")])) =
      sortKeysFun (Json.obj [("b", Json.num 1), ("id", Json.str "x")]) ∧
     stableDumpBytes (sortKeysFun (Json.obj [("b", Json.num 1), ("id", Json.str "x")])) =
      stableDumpBytes (Json.obj [("b", Json.num 1), ("id", Json.str "x")]) ∧
     idSortedOutsideArr (sortKeysFun (Json.obj [("b", Json.num 1), ("id", Json.str "x")])) = true) :=
  ⟨rfl, C8_canonical_rewrite_idempotent (Json.obj [("b", Json.num 1), ("id", Json.str "x")]) rfl⟩

/-- C8 counterexample: `sort_keys` does not recurse into lists, so an object
nested inside an array keeps its unsorted keys — the rewritten form of
`{"z": [{"b": 1, "a": 2}]}` is NOT key-sorted at every object, refuting the
claim's "at every object" clause (idempotence itself holds, see the amended
theorem). -/
theorem C8_counterexample_array_object :
    noLocalDup (Json.obj [("z", Json.arr [Json.obj [("b", Json.num 1), ("a", Json.num 2)]])]) = true ∧
    deepIdSorted (sortKeysFun
      (Json.obj [("z", Json.arr [Json.obj [("b", Json.num 1), ("a", Json.num 2)]])])) = false :=
  ⟨rfl, rfl⟩

theorem readChunks_join (l : List Nat) : (readChunks l).flatten = l := by
  rw [readChunks]
  by_cases h : l = []
  · simp [h]
  · rw [if_neg h]
    rw [List.flatten_cons, readChunks_join (l.drop 1048576)]
    exact List.take_append_drop 1048576 l
termination_by l.length
decreasing_by
  simp only [List.length_drop]
  have : 0 < l.length := List.length_pos.mpr (by assumption)
  omega

theorem foldl_shaUpdate (acc : List Nat) :
    ∀ cs : List (List Nat), cs.foldl shaUpdate acc = acc ++ cs.flatten
  | [] => by simp [List.foldl]
  | c :: cs => by
      rw [List.foldl_cons, foldl_shaUpdate (shaUpdate acc c) cs, List.flatten_cons]
      simp [shaUpdate]

theorem toHex8_length (w : Nat) : (toHex8 w).length = 8 := rfl

theorem sha256hex_length (l : List Nat) : (sha256hex l).length = 64 := by
  simp [sha256hex, String.length_append, toHex8_length]

/-- C9: the digest streamed over 1 MiB chunks equals the one-shot digest of
the whole contents, and is a 64-character hex string for every input,
including the empty file. -/
theorem C9_sha256_streaming (contents : List Nat) :
    sha256_of_file contents = sha256hex contents ∧
    (sha256_of_file contents).length = 64 := by
  have h : sha256_of_file contents = sha256hex contents := by
    unfold sha256_of_file
    rw [foldl_shaUpdate [] (readChunks contents), readChunks_join]
    simp
  exact ⟨h, by rw [h]; exact sha256hex_length contents⟩

theorem foldl_processFile_datafiles (doFix : Bool) : ∀ (files : List RawFile) (st : LoopState),
    (files.foldl (processFile doFix) st).datafiles = st.datafiles ++ files.filterMap dfOf?
  | [], st => by simp
  | f :: fs, st => by
      rw [List.foldl_cons, foldl_processFile_datafiles doFix fs]
      cases hp : parseFile f with
      | none => simp [processFile, hp, dfOf?, List.filterMap_cons]
      | some content => simp [processFile, hp, dfOf?, List.filterMap_cons]

theorem foldl_processFile_errors (doFix : Bool) : ∀ (files : List RawFile) (st : LoopState),
    (files.foldl (processFile doFix) st).errors = st.errors ++ files.flatMap fileErrors
  | [], st => by simp
  | f :: fs, st => by
      rw [List.foldl_cons, foldl_processFile_errors doFix fs]
      cases hp : parseFile f with
      | none => simp [processFile, hp, fileErrors, List.flatMap_cons]
      | some content => simp [processFile, hp, fileErrors, List.flatMap_cons]

theorem foldl_processFile_warnings (doFix : Bool) : ∀ (files : List RawFile) (st : LoopState),
    (files.foldl (processFile doFix) st).warnings = st.warnings ++ files.flatMap fileWarnings
  | [], st => by simp
  | f :: fs, st => by
      rw [List.foldl_cons, foldl_processFile_warnings doFix fs]
      cases hp : parseFile f with
      | none => simp [processFile, hp, fileWarnings, List.flatMap_cons]
      | some content => simp [processFile, hp, fileWarnings, List.flatMap_cons]

theorem foldl_processFile_rewritten (doFix : Bool) : ∀ (files : List RawFile) (st : LoopState),
    (files.foldl (processFile doFix) st).rewritten = st.rewritten ++
      (if doFix then (files.filter (fun f => (parseFile f).isSome)).map RawFile.rel else [])
  | [], st => by simp
  | f :: fs, st => by
      rw [List.foldl_cons, foldl_processFile_rewritten doFix fs]
      cases hp : parseFile f with
      | none =>
          simp only [processFile, hp, List.filter_cons, Option.isSome_none,
            Bool.false_eq_true, if_false]
      | some content =>
          cases doFix with
          | true => simp [processFile, hp, List.filter_cons]
          | false => simp [processFile, hp, List.filter_cons]

theorem foldl_processFile_index (doFix : Bool) : ∀ (files : List RawFile) (st : LoopState),
    ((files.foldl (processFile doFix) st).idIndex,
     (files.foldl (processFile doFix) st).idDups) =
      (files.filterMap dfOf?).foldl dfIndexStep (st.idIndex, st.idDups)
  | [], st => by simp
  | f :: fs, st => by
      rw [List.foldl_cons, foldl_processFile_index doFix fs]
      cases hp : parseFile f with
      | none => simp [processFile, hp, dfOf?, List.filterMap_cons]
      | some content =>
          simp only [processFile, hp, dfOf?, List.filterMap_cons, Option.map_some']
          rw [List.foldl_cons]
          rfl

theorem analyze_eq_core (inp : AnalyzeInput) (h : inp.dataDirExists = true) :
    analyze inp = analyzeCore inp (inp.files.foldl (processFile inp.doFix)
      ⟨[], [], [], [], [], if inp.files.isEmpty then [.noJsonFiles] else []⟩) := by
  unfold analyze
  rw [if_neg (by rw [h]; exact fun hc => hc rfl)]

theorem analyze_fields (inp : AnalyzeInput) (h : inp.dataDirExists = true) :
    (analyze inp).datafiles = inp.files.filterMap dfOf? ∧
    (analyze inp).idIndex = (finalIndex inp.files).1 ∧
    (analyze inp).idDups = (finalIndex inp.files).2 ∧
    (analyze inp).errors = analysisErrors inp.files ∧
    (analyze inp).warnings = analysisWarnings inp ∧
    (analyze inp).rewritten = (if inp.doFix then
      ((inp.files.filter (fun f => (parseFile f).isSome)).map RawFile.rel) else []) ∧
    (analyze inp).manifest = some (buildManifest inp.generatedAt inp.rootStr
      (inp.files.filterMap dfOf?) inp.assets) ∧
    (analyze inp).manifestWritten = true ∧
    (analyze inp).exitCode =
      (if analysisErrors inp.files ≠ [] then 1
       else if inp.failOnWarning = true ∧ analysisWarnings inp ≠ [] then 1 else 0) := by
  rw [analyze_eq_core inp h]
  have hidx := foldl_processFile_index inp.doFix inp.files ⟨[], [], [], [], [],
    if inp.files.isEmpty then [.noJsonFiles] else []⟩
  have hI : (inp.files.foldl (processFile inp.doFix) ⟨[], [], [], [], [],
      if inp.files.isEmpty then [.noJsonFiles] else []⟩).idIndex = (finalIndex inp.files).1 :=
    congrArg Prod.fst hidx
  have hD : (inp.files.foldl (processFile inp.doFix) ⟨[], [], [], [], [],
      if inp.files.isEmpty then [.noJsonFiles] else []⟩).idDups = (finalIndex inp.files).2 :=
    congrArg Prod.snd hidx
  have hDf := foldl_processFile_datafiles inp.doFix inp.files ⟨[], [], [], [], [],
    if inp.files.isEmpty then [.noJsonFiles] else []⟩
  have hE := foldl_processFile_errors inp.doFix inp.files ⟨[], [], [], [], [],
    if inp.files.isEmpty then [.noJsonFiles] else []⟩
  have hW := foldl_processFile_warnings inp.doFix inp.files ⟨[], [], [], [], [],
    if inp.files.isEmpty then [.noJsonFiles] else []⟩
  have hR := foldl_processFile_rewritten inp.doFix inp.files ⟨[], [], [], [], [],
    if inp.files.isEmpty then [.noJsonFiles] else []⟩
  refine ⟨?_, ?_, ?_, ?_, ?_, ?_, ?_, rfl, ?_⟩
  · show (inp.files.foldl (processFile inp.doFix) _).datafiles = _
    rw [hDf]; rfl
  · exact hI
  · exact hD
  · show (inp.files.foldl (processFile inp.doFix) _).errors ++ _ ++ _ = _
    rw [hE, hI, hD, hDf]
    unfold analysisErrors unresolvedErrors
    rfl
  · show (inp.files.foldl (processFile inp.doFix) _).warnings ++ _ ++ _ = _
    rw [hW, hDf]
    unfold analysisWarnings
    rfl
  · show (inp.files.foldl (processFile inp.doFix) _).rewritten = _
    rw [hR]; rfl
  · show some (buildManifest _ _ (inp.files.foldl (processFile inp.doFix) _).datafiles _) = _
    rw [hDf]; rfl
  · show (if (inp.files.foldl (processFile inp.doFix) _).errors ++ _ ++ _ ≠ [] then 1
      else if _ ∧ (inp.files.foldl (processFile inp.doFix) _).warnings ++ _ ++ _ ≠ [] then 1
      else 0) = _
    rw [hE, hW, hI, hD, hDf]
    unfold analysisErrors unresolvedErrors analysisWarnings
    rfl

/-- C6 (amended): the exit status is zero exactly when no errors were
reported and (unless --fail-on-warning) regardless of warnings; the manifest
is written even when errors exist PROVIDED the data directory exists — the
missing-data-directory error aborts before the manifest is written (see the
counterexample). -/
theorem C6_exit_and_manifest (inp : AnalyzeInput) :
    ((analyze inp).exitCode = 0 ↔
      ((analyze inp).errors = [] ∧
        (inp.failOnWarning = true → (analyze inp).warnings = []))) ∧
    (inp.dataDirExists = true → (analyze inp).manifestWritten = true) := by
  by_cases h : inp.dataDirExists = true
  · obtain ⟨-, -, -, hE, hW, -, -, hMW, hX⟩ := analyze_fields inp h
    rw [hE, hW, hX]
    refine ⟨?_, fun _ => hMW⟩
    split_ifs with h1 h2
    · simp only [Decidable.not_not] at h1
      simp [h1]
    · simp only [Decidable.not_not] at h1
      constructor
      · intro hc; cases hc
      · rintro ⟨-, himp⟩
        exact absurd (himp h2.1) h2.2
    · simp only [Decidable.not_not] at h1
      rw [Decidable.not_and_iff_or_not] at h2
      constructor
      · intro _
        refine ⟨h1, fun hf => ?_⟩
        rcases h2 with h2 | h2
        · exact absurd hf h2
        · simpa using h2
      · intro _; rfl
  · unfold analyze
    rw [if_pos (by simpa using h)]
    constructor
    · constructor
      · intro hc; cases hc
      · rintro ⟨hc, -⟩; cases hc
    · intro hc; exact absurd hc h

theorem C6_counterexample_missing_datadir :
    (analyze ⟨false, [], [], ⟨fun _ => false, fun _ => false⟩,
      false, false, "T", "/r"⟩).errors ≠ [] ∧
    (analyze ⟨false, [], [], ⟨fun _ => false, fun _ => false⟩,
      false, false, "T", "/r"⟩).manifestWritten = false ∧
    (analyze ⟨false, [], [], ⟨fun _ => false, fun _ => false⟩,
      false, false, "T", "/r"⟩).exitCode = 1 := by
  refine ⟨?_, rfl, rfl⟩
  intro hc
  cases hc

theorem C6_exit_and_manifest_witness :
    ((analyze (egInput [egFile "data/a.json" [("id", Json.str "x")]])).exitCode = 0 ↔
      ((analyze (egInput [egFile "data/a.json" [("id", Json.str "x")]])).errors = [] ∧
        ((egInput [egFile "data/a.json" [("id", Json.str "x")]]).failOnWarning = true →
          (analyze (egInput [egFile "data/a.json" [("id", Json.str "x")]])).warnings = []))) ∧
    ((egInput [egFile "data/a.json" [("id", Json.str "x")]]).dataDirExists = true →
      (analyze (egInput [egFile "data/a.json" [("id", Json.str "x")]])).manifestWritten = true) :=
  C6_exit_and_manifest (egInput [egFile "data/a.json" [("id", Json.str "x")]])

-- ------------------- C7 support -------------------

theorem map_nodup_inj {α β : Type} (f : α → β) :
    ∀ (l : List α), (l.map f).Nodup → ∀ a ∈ l, ∀ b ∈ l, f a = f b → a = b
  | [], _, a, ha, _, _, _ => by cases ha
  | x :: t, hnd, a, ha, b, hb, hab => by
      rw [List.map_cons, List.nodup_cons] at hnd
      rcases List.mem_cons.mp ha with rfl | ha2
      · rcases List.mem_cons.mp hb with rfl | hb2
        · rfl
        · exact absurd (hab ▸ List.mem_map_of_mem f hb2) hnd.1
      · rcases List.mem_cons.mp hb with rfl | hb2
        · exact absurd (hab ▸ List.mem_map_of_mem f ha2) hnd.1
        · exact map_nodup_inj f t hnd.2 a ha2 b hb2 hab

/-- Index owners come from the accumulator or from a processed record. -/
theorem foldl_dfIndexStep_owners :
    ∀ (dfs : List DataFile) (acc : List (String × String) × List (String × Nat)),
      ∀ p ∈ (dfs.foldl dfIndexStep acc).1, p ∈ acc.1 ∨ ∃ df ∈ dfs, p.2 = df.rel
  | [], acc, p, hp => Or.inl hp
  | df :: rest, acc, p, hp => by
      rw [List.foldl_cons] at hp
      rcases foldl_dfIndexStep_owners rest (dfIndexStep acc df) p hp with h | h
      · unfold dfIndexStep indexStep at h
        rcases hid : df.id with - | s
        · rw [hid] at h
          exact Or.inl h
        · rw [hid] at h
          dsimp only at h
          by_cases hs : s ≠ ""
          · rw [if_pos hs] at h
            by_cases ho : (List.lookup s acc.1).isSome
            · rw [if_pos ho] at h
              exact Or.inl h
            · rw [if_neg ho] at h
              rcases List.mem_append.mp h with h2 | h2
              · exact Or.inl h2
              · right
                refine ⟨df, List.mem_cons_self df rest, ?_⟩
                rw [List.mem_singleton.mp h2]
          · rw [if_neg hs] at h
            exact Or.inl h
      · obtain ⟨df2, hdf2, he⟩ := h
        exact Or.inr ⟨df2, List.mem_cons.mpr (Or.inr hdf2), he⟩

/-- C7: a file that fails to parse is reported, excluded from the record
set, the identifier index, the manifest, and the rewrite set, while every
file that parses is still processed. -/
theorem C7_parse_failure_isolation (inp : AnalyzeInput)
    (hdir : inp.dataDirExists = true)
    (hnd : (inp.files.map RawFile.rel).Nodup)
    (f : RawFile) (hf : f ∈ inp.files) (hfail : parseFile f = none) :
    Finding.parseFailed f.rel ∈ (analyze inp).errors ∧
    (∀ df ∈ (analyze inp).datafiles, df.rel ≠ f.rel) ∧
    f.rel ∉ (analyze inp).rewritten ∧
    (∀ p ∈ (analyze inp).idIndex, p.2 ≠ f.rel) ∧
    (∀ m, (analyze inp).manifest = some m → ∀ e ∈ m.data, e.path ≠ f.rel) ∧
    (∀ g ∈ inp.files, ∀ c, parseFile g = some c → mkDf g c ∈ (analyze inp).datafiles) := by
  obtain ⟨hDf, hI, -, hE, -, hR, hM, -, -⟩ := analyze_fields inp hdir
  have hdfrel : ∀ df ∈ inp.files.filterMap dfOf?, df.rel ≠ f.rel := by
    intro df hdf hrel
    obtain ⟨g, hg, hgd⟩ := List.mem_filterMap.mp hdf
    unfold dfOf? at hgd
    cases hpg : parseFile g with
    | none => rw [hpg] at hgd; cases hgd
    | some c =>
        rw [hpg] at hgd
        cases hgd
        have : g = f := map_nodup_inj RawFile.rel inp.files hnd g hg f hf (by
          simpa [mkDf] using hrel)
        rw [this] at hpg
        rw [hfail] at hpg
        cases hpg
  refine ⟨?_, ?_, ?_, ?_, ?_, ?_⟩
  · rw [hE]
    unfold analysisErrors
    refine List.mem_append.mpr (Or.inl (List.mem_append.mpr (Or.inl ?_)))
    refine List.mem_flatMap.mpr ⟨f, hf, ?_⟩
    unfold fileErrors
    rw [hfail]
    exact List.mem_singleton.mpr rfl
  · rw [hDf]; exact hdfrel
  · rw [hR]
    by_cases hfix : inp.doFix
    · rw [if_pos hfix]
      intro hmem
      obtain ⟨g, hg, hgrel⟩ := List.mem_map.mp hmem
      have hgok := (List.mem_filter.mp hg).2
      have : g = f := map_nodup_inj RawFile.rel inp.files hnd g
        (List.mem_filter.mp hg).1 f hf hgrel
      rw [this, hfail] at hgok
      cases hgok
    · rw [if_neg hfix]
      exact List.not_mem_nil f.rel
  · rw [hI]
    intro p hp
    rcases foldl_dfIndexStep_owners (inp.files.filterMap dfOf?) ([], []) p hp with h | h
    · cases h
    · obtain ⟨df, hdf, he⟩ := h
      rw [he]
      exact hdfrel df hdf
  · intro m hm e he
    rw [hM] at hm
    cases hm
    obtain ⟨df, hdf, hde⟩ := List.mem_map.mp he
    have hdf2 : df ∈ inp.files.filterMap dfOf? :=
      (List.perm_insertionSort dfLe _).subset hdf
    rw [← hde]
    exact hdfrel df hdf2
  · intro g hg c hc
    rw [hDf]
    refine List.mem_filterMap.mpr ⟨g, hg, ?_⟩
    unfold dfOf?
    rw [hc]
    rfl

theorem C7_parse_failure_isolation_witness :
    Finding.parseFailed "data/bad.json" ∈ (analyze inpW7).errors ∧
    (∀ df ∈ (analyze inpW7).datafiles, df.rel ≠ "data/bad.json") ∧
    "data/bad.json" ∉ (analyze inpW7).rewritten ∧
    (∀ p ∈ (analyze inpW7).idIndex, p.2 ≠ "data/bad.json") ∧
    (∀ m, (analyze inpW7).manifest = some m → ∀ e ∈ m.data, e.path ≠ "data/bad.json") ∧
    (∀ g ∈ inpW7.files, ∀ c, parseFile g = some c → mkDf g c ∈ (analyze inpW7).datafiles) :=
  C7_parse_failure_isolation inpW7 rfl (by decide) ⟨"data/bad.json", [], none⟩
    (List.mem_cons_self _ _) rfl

-- ------------------- C10 support -------------------

theorem bumpCounter_keys_mem : ∀ (l : List (String × Nat)) (s : String),
    ∀ p ∈ bumpCounter l s, p.1 = s ∨ ∃ q ∈ l, p.1 = q.1
  | [], s, p, hp => by
      rw [bumpCounter] at hp
      rw [List.mem_singleton.mp hp]
      exact Or.inl rfl
  | (k', n) :: t, s, p, hp => by
      rw [bumpCounter] at hp
      by_cases hk : k' = s
      · rw [if_pos hk] at hp
        rcases List.mem_cons.mp hp with he | hp2
        · rw [he]
          exact Or.inl hk
        · exact Or.inr ⟨p, List.mem_cons.mpr (Or.inr hp2), rfl⟩
      · rw [if_neg hk] at hp
        rcases List.mem_cons.mp hp with he | hp2
        · exact Or.inr ⟨(k', n), List.mem_cons_self _ _, by rw [he]⟩
        · rcases bumpCounter_keys_mem t s p hp2 with h | ⟨q, hq, he⟩
          · exact Or.inl h
          · exact Or.inr ⟨q, List.mem_cons.mpr (Or.inr hq), he⟩

/-- Neither the index nor the duplicate counter ever holds the empty-string
identifier: `if jid:` filters it out. -/
theorem foldl_dfIndexStep_no_empty :
    ∀ (dfs : List DataFile) (acc : List (String × String) × List (String × Nat)),
      (∀ p ∈ acc.1, p.1 ≠ "") → (∀ p ∈ acc.2, p.1 ≠ "") →
      (∀ p ∈ (dfs.foldl dfIndexStep acc).1, p.1 ≠ "") ∧
      (∀ p ∈ (dfs.foldl dfIndexStep acc).2, p.1 ≠ "")
  | [], acc, h1, h2 => ⟨h1, h2⟩
  | df :: rest, acc, h1, h2 => by
      rw [List.foldl_cons]
      refine foldl_dfIndexStep_no_empty rest (dfIndexStep acc df) ?_ ?_
      · intro p hp
        unfold dfIndexStep indexStep at hp
        rcases hid : df.id with - | s
        · rw [hid] at hp; exact h1 p hp
        · rw [hid] at hp
          dsimp only at hp
          by_cases hs : s ≠ ""
          · rw [if_pos hs] at hp
            by_cases ho : (List.lookup s acc.1).isSome
            · rw [if_pos ho] at hp; exact h1 p hp
            · rw [if_neg ho] at hp
              rcases List.mem_append.mp hp with hp2 | hp2
              · exact h1 p hp2
              · rw [List.mem_singleton.mp hp2]; exact hs
          · rw [if_neg hs] at hp; exact h1 p hp
      · intro p hp
        unfold dfIndexStep indexStep at hp
        rcases hid : df.id with - | s
        · rw [hid] at hp; exact h2 p hp
        · rw [hid] at hp
          dsimp only at hp
          by_cases hs : s ≠ ""
          · rw [if_pos hs] at hp
            by_cases ho : (List.lookup s acc.1).isSome
            · rw [if_pos ho] at hp
              rcases bumpCounter_keys_mem acc.2 s p hp with h | ⟨q, hq, he⟩
              · rw [h]; exact hs
              · rw [he]; exact h2 q hq
            · rw [if_neg ho] at hp; exact h2 p hp
          · rw [if_neg hs] at hp; exact h2 p hp

theorem mem_insertSortedDedup {a b : String} :
    ∀ (l : List String), a ∈ insertSortedDedup b l ↔ (a = b ∨ a ∈ l)
  | [] => by simp [insertSortedDedup]
  | c :: t => by
      unfold insertSortedDedup
      by_cases h1 : strLt b c = true
      · simp [h1, List.mem_cons]
      · rw [if_neg h1]
        by_cases h2 : b = c
        · rw [if_pos h2]
          constructor
          · intro h; exact Or.inr h
          · rintro (rfl | h)
            · rw [h2]; exact List.mem_cons_self _ _
            · exact h
        · rw [if_neg h2]
          rw [List.mem_cons, List.mem_cons, mem_insertSortedDedup t]
          tauto

theorem mem_sortedDedup_aux {a : String} :
    ∀ (l acc : List String),
      a ∈ l.foldl (fun acc x => insertSortedDedup x acc) acc ↔ (a ∈ acc ∨ a ∈ l)
  | [], acc => by simp
  | x :: t, acc => by
      rw [List.foldl_cons, mem_sortedDedup_aux t, mem_insertSortedDedup, List.mem_cons]
      tauto

theorem mem_sortedDedup {a : String} (l : List String) :
    a ∈ sortedDedup l ↔ a ∈ l := by
  unfold sortedDedup
  rw [mem_sortedDedup_aux]
  simp

theorem addMissing_self : ∀ (acc : List (String × List String)) (rel : String)
    (ms : List String), ∃ l, (rel, l) ∈ addMissing rel ms acc ∧ ∀ x ∈ ms, x ∈ l
  | [], rel, ms => ⟨ms, List.mem_singleton.mpr rfl, fun x hx => hx⟩
  | (r, l0) :: t, rel, ms => by
      unfold addMissing
      by_cases hr : r = rel
      · subst hr
        rw [if_pos rfl]
        exact ⟨l0 ++ ms, List.mem_cons_self _ _, fun x hx => List.mem_append.mpr (Or.inr hx)⟩
      · rw [if_neg hr]
        obtain ⟨l, hl, hsub⟩ := addMissing_self t rel ms
        exact ⟨l, List.mem_cons.mpr (Or.inr hl), hsub⟩

theorem addMissing_mono : ∀ (acc : List (String × List String)) (rel r : String)
    (ms l : List String), (r, l) ∈ acc →
      ∃ l', (r, l') ∈ addMissing rel ms acc ∧ ∀ x ∈ l, x ∈ l'
  | [], rel, r, ms, l, h => by cases h
  | (r0, l0) :: t, rel, r, ms, l, h => by
      unfold addMissing
      by_cases hr : r0 = rel
      · subst hr
        rw [if_pos rfl]
        rcases List.mem_cons.mp h with he | h2
        · obtain ⟨he1, he2⟩ := (Prod.mk.injEq _ _ _ _).mp he
          refine ⟨l ++ ms, ?_, fun x hx => List.mem_append.mpr (Or.inl hx)⟩
          rw [he1, he2]
          exact List.mem_cons_self _ _
        · exact ⟨l, List.mem_cons.mpr (Or.inr h2), fun x hx => hx⟩
      · rw [if_neg hr]
        rcases List.mem_cons.mp h with he | h2
        · obtain ⟨he1, he2⟩ := (Prod.mk.injEq _ _ _ _).mp he
          refine ⟨l, ?_, fun x hx => hx⟩
          rw [he1, he2]
          exact List.mem_cons_self _ _
        · obtain ⟨l', hl', hsub⟩ := addMissing_mono t rel r ms l h2
          exact ⟨l', List.mem_cons.mpr (Or.inr hl'), hsub⟩

theorem collectUnresolvedAux_mono (known : List String) :
    ∀ (dfs : List DataFile) (acc : List (String × List String)) (r : String)
      (l : List String), (r, l) ∈ acc →
      ∃ l', (r, l') ∈ collectUnresolvedAux known acc dfs ∧ ∀ x ∈ l, x ∈ l'
  | [], acc, r, l, h => ⟨l, h, fun x hx => hx⟩
  | df :: rest, acc, r, l, h => by
      unfold collectUnresolvedAux
      by_cases hm : df.deps.filter (fun d => ¬ d ∈ known) ≠ []
      · rw [if_pos hm]
        obtain ⟨l1, hl1, hs1⟩ := addMissing_mono acc df.rel r
          (df.deps.filter (fun d => ¬ d ∈ known)) l h
        obtain ⟨l2, hl2, hs2⟩ := collectUnresolvedAux_mono known rest _ r l1 hl1
        exact ⟨l2, hl2, fun x hx => hs2 x (hs1 x hx)⟩
      · rw [if_neg hm]
        exact collectUnresolvedAux_mono known rest acc r l h

/-- Every record with unresolvable deps owns a grouped entry containing them. -/
theorem collectUnresolvedAux_mem (known : List String) :
    ∀ (dfs : List DataFile) (acc : List (String × List String)) (df : DataFile),
      df ∈ dfs → df.deps.filter (fun d => ¬ d ∈ known) ≠ [] →
      ∃ l, (df.rel, l) ∈ collectUnresolvedAux known acc dfs ∧
        ∀ x ∈ df.deps.filter (fun d => ¬ d ∈ known), x ∈ l
  | [], acc, df, hdf, _ => by cases hdf
  | df0 :: rest, acc, df, hdf, hm => by
      rcases List.mem_cons.mp hdf with rfl | hdf2
      · unfold collectUnresolvedAux
        rw [if_pos hm]
        obtain ⟨l1, hl1, hs1⟩ := addMissing_self acc df.rel
          (df.deps.filter (fun d => ¬ d ∈ known))
        obtain ⟨l2, hl2, hs2⟩ := collectUnresolvedAux_mono known rest _ df.rel l1 hl1
        exact ⟨l2, hl2, fun x hx => hs2 x (hs1 x hx)⟩
      · unfold collectUnresolvedAux
        by_cases hm0 : df0.deps.filter (fun d => ¬ d ∈ known) ≠ []
        · rw [if_pos hm0]
          exact collectUnresolvedAux_mem known rest _ df hdf2 hm
        · rw [if_neg hm0]
          exact collectUnresolvedAux_mem known rest acc df hdf2 hm

/-- C10: a record whose top-level `id` is present but the empty string is
silently treated as having no identifier — never indexed, never the subject
of a duplicate finding, triggering no error of its own (no parse or
id-not-string finding names it, given distinct relative paths), unable to be
a reference target (a reference to "" is unresolved) — yet its manifest
entry carries the empty string itself, not null. -/
theorem C10_empty_string_id (inp : AnalyzeInput) (hdir : inp.dataDirExists = true) :
    (∀ p ∈ (analyze inp).idIndex, p.1 ≠ "") ∧
    (∀ c o, Finding.dupId "" c o ∉ (analyze inp).errors) ∧
    (∀ df ∈ (analyze inp).datafiles, "" ∈ df.deps →
      ∃ ms, Finding.unresolvedRefs df.rel ms ∈ (analyze inp).errors ∧ "" ∈ ms) ∧
    (∀ df ∈ (analyze inp).datafiles, df.id = some "" →
      ∀ m, (analyze inp).manifest = some m →
        ∃ e ∈ m.data, e.path = df.rel ∧ e.id = some "") ∧
    ((inp.files.map RawFile.rel).Nodup →
      ∀ f ∈ inp.files, ∀ content, parseFile f = some content →
        List.lookup "id" content = some (Json.str "") →
        Finding.parseFailed f.rel ∉ (analyze inp).errors ∧
        Finding.idNotString f.rel ∉ (analyze inp).errors) := by
  obtain ⟨hDf, hI, hD, hE, -, -, hM, -, -⟩ := analyze_fields inp hdir
  have hne := foldl_dfIndexStep_no_empty (inp.files.filterMap dfOf?) ([], [])
    (fun p hp => by cases hp) (fun p hp => by cases hp)
  refine ⟨?_, ?_, ?_, ?_, ?_⟩
  · rw [hI]
    exact hne.1
  · intro c o hmem
    rw [hE] at hmem
    unfold analysisErrors at hmem
    rcases List.mem_append.mp hmem with hm1 | hm3
    · rcases List.mem_append.mp hm1 with hm1 | hm2
      · obtain ⟨f, -, hfe⟩ := List.mem_flatMap.mp hm1
        unfold fileErrors at hfe
        cases hp : parseFile f with
        | none =>
            rw [hp] at hfe
            cases List.mem_singleton.mp hfe
        | some content =>
            rw [hp] at hfe
            dsimp only at hfe
            unfold jidErrors at hfe
            rcases hl : List.lookup "id" content with - | v
            · rw [hl] at hfe
              cases hfe
            · rw [hl] at hfe
              cases v with
              | null => exact absurd (List.mem_singleton.mp hfe) (fun hc => by cases hc)
              | bool b => exact absurd (List.mem_singleton.mp hfe) (fun hc => by cases hc)
              | num n => exact absurd (List.mem_singleton.mp hfe) (fun hc => by cases hc)
              | str s2 => cases hfe
              | arr es => exact absurd (List.mem_singleton.mp hfe) (fun hc => by cases hc)
              | obj ms => exact absurd (List.mem_singleton.mp hfe) (fun hc => by cases hc)
      · unfold dupErrors at hm2
        obtain ⟨p, hp, hpe⟩ := List.mem_map.mp hm2
        have hp1 : p.1 = "" := by
          have := congrArg (fun fi => match fi with
            | Finding.dupId i _ _ => i
            | _ => "x") hpe
          simpa using this
        exact hne.2 p hp hp1
    · unfold unresolvedErrors at hm3
      obtain ⟨p, -, hpe⟩ := List.mem_map.mp hm3
      cases hpe
  · intro df hdf hdep
    rw [hDf] at hdf
    have hknown : ¬ "" ∈ (finalIndex inp.files).1.map Prod.fst := by
      intro hc
      obtain ⟨p, hp, hpe⟩ := List.mem_map.mp hc
      exact hne.1 p hp hpe
    have hfilter : "" ∈ df.deps.filter
        (fun d => ¬ d ∈ (finalIndex inp.files).1.map Prod.fst) := by
      rw [List.mem_filter]
      exact ⟨hdep, by simpa using hknown⟩
    have hmne : df.deps.filter
        (fun d => ¬ d ∈ (finalIndex inp.files).1.map Prod.fst) ≠ [] := by
      intro hc
      rw [hc] at hfilter
      cases hfilter
    obtain ⟨l, hl, hsub⟩ := collectUnresolvedAux_mem
      ((finalIndex inp.files).1.map Prod.fst) (inp.files.filterMap dfOf?) [] df hdf hmne
    refine ⟨sortedDedup l, ?_, ?_⟩
    · rw [hE]
      unfold analysisErrors
      refine List.mem_append.mpr (Or.inr ?_)
      unfold unresolvedErrors collectUnresolved
      exact List.mem_map.mpr ⟨(df.rel, l), hl, rfl⟩
    · rw [mem_sortedDedup]
      exact hsub "" hfilter
  · intro df hdf hid m hm
    rw [hM] at hm
    cases hm
    refine ⟨mkDataEntry df, ?_, rfl, ?_⟩
    · refine List.mem_map.mpr ⟨df, ?_, rfl⟩
      rw [hDf] at hdf
      exact (List.perm_insertionSort dfLe _).symm.subset hdf
    · rw [show (mkDataEntry df).id = df.id from rfl, hid]
  · intro hnd f hf content hpc hlook
    constructor
    · intro hmem
      rw [hE] at hmem
      unfold analysisErrors at hmem
      rcases List.mem_append.mp hmem with hm1 | hm3
      · rcases List.mem_append.mp hm1 with hm1 | hm2
        · obtain ⟨f2, hf2, hfe⟩ := List.mem_flatMap.mp hm1
          unfold fileErrors at hfe
          cases hp2 : parseFile f2 with
          | none =>
              rw [hp2] at hfe
              have he := List.mem_singleton.mp hfe
              injection he with hrel
              have hff : f = f2 := map_nodup_inj RawFile.rel inp.files hnd f hf f2 hf2 hrel
              rw [← hff] at hp2
              rw [hpc] at hp2
              cases hp2
          | some c2 =>
              rw [hp2] at hfe
              dsimp only at hfe
              unfold jidErrors at hfe
              rcases hl : List.lookup "id" c2 with - | v
              · rw [hl] at hfe
                cases hfe
              · rw [hl] at hfe
                cases v with
                | str s2 => cases hfe
                | null => exact absurd (List.mem_singleton.mp hfe) (fun hc => by cases hc)
                | bool b => exact absurd (List.mem_singleton.mp hfe) (fun hc => by cases hc)
                | num n => exact absurd (List.mem_singleton.mp hfe) (fun hc => by cases hc)
                | arr es => exact absurd (List.mem_singleton.mp hfe) (fun hc => by cases hc)
                | obj ms2 => exact absurd (List.mem_singleton.mp hfe) (fun hc => by cases hc)
        · unfold dupErrors at hm2
          obtain ⟨p, -, hpe⟩ := List.mem_map.mp hm2
          cases hpe
      · unfold unresolvedErrors at hm3
        obtain ⟨p, -, hpe⟩ := List.mem_map.mp hm3
        cases hpe
    · intro hmem
      rw [hE] at hmem
      unfold analysisErrors at hmem
      rcases List.mem_append.mp hmem with hm1 | hm3
      · rcases List.mem_append.mp hm1 with hm1 | hm2
        · obtain ⟨f2, hf2, hfe⟩ := List.mem_flatMap.mp hm1
          unfold fileErrors at hfe
          cases hp2 : parseFile f2 with
          | none =>
              rw [hp2] at hfe
              exact absurd (List.mem_singleton.mp hfe) (fun hc => by cases hc)
          | some c2 =>
              rw [hp2] at hfe
              dsimp only at hfe
              unfold jidErrors at hfe
              rcases hl : List.lookup "id" c2 with - | v
              · rw [hl] at hfe
                cases hfe
              · rw [hl] at hfe
                cases v with
                | str s2 => cases hfe
                | null =>
                    have he := List.mem_singleton.mp hfe
                    injection he with hrel
                    have hff : f = f2 :=
                      map_nodup_inj RawFile.rel inp.files hnd f hf f2 hf2 hrel
                    rw [← hff] at hp2
                    have hcc := hpc.symm.trans hp2
                    injection hcc with hcc2
                    rw [← hcc2] at hl
                    have hbad := hlook.symm.trans hl
                    injection hbad with hbad2
                    cases hbad2
                | bool b =>
                    have he := List.mem_singleton.mp hfe
                    injection he with hrel
                    have hff : f = f2 :=
                      map_nodup_inj RawFile.rel inp.files hnd f hf f2 hf2 hrel
                    rw [← hff] at hp2
                    have hcc := hpc.symm.trans hp2
                    injection hcc with hcc2
                    rw [← hcc2] at hl
                    have hbad := hlook.symm.trans hl
                    injection hbad with hbad2
                    cases hbad2
                | num n =>
                    have he := List.mem_singleton.mp hfe
                    injection he with hrel
                    have hff : f = f2 :=
                      map_nodup_inj RawFile.rel inp.files hnd f hf f2 hf2 hrel
                    rw [← hff] at hp2
                    have hcc := hpc.symm.trans hp2
                    injection hcc with hcc2
                    rw [← hcc2] at hl
                    have hbad := hlook.symm.trans hl
                    injection hbad with hbad2
                    cases hbad2
                | arr es =>
                    have he := List.mem_singleton.mp hfe
                    injection he with hrel
                    have hff : f = f2 :=
                      map_nodup_inj RawFile.rel inp.files hnd f hf f2 hf2 hrel
                    rw [← hff] at hp2
                    have hcc := hpc.symm.trans hp2
                    injection hcc with hcc2
                    rw [← hcc2] at hl
                    have hbad := hlook.symm.trans hl
                    injection hbad with hbad2
                    cases hbad2
                | obj ms2 =>
                    have he := List.mem_singleton.mp hfe
                    injection he with hrel
                    have hff : f = f2 :=
                      map_nodup_inj RawFile.rel inp.files hnd f hf f2 hf2 hrel
                    rw [← hff] at hp2
                    have hcc := hpc.symm.trans hp2
                    injection hcc with hcc2
                    rw [← hcc2] at hl
                    have hbad := hlook.symm.trans hl
                    injection hbad with hbad2
                    cases hbad2
        · unfold dupErrors at hm2
          obtain ⟨p, -, hpe⟩ := List.mem_map.mp hm2
          cases hpe
      · unfold unresolvedErrors at hm3
        obtain ⟨p, -, hpe⟩ := List.mem_map.mp hm3
        cases hpe

theorem C10_empty_string_id_witness :
    ((∀ p ∈ (analyze c10inp).idIndex, p.1 ≠ "") ∧
     (∀ c o, Finding.dupId "" c o ∉ (analyze c10inp).errors) ∧
     (∀ df ∈ (analyze c10inp).datafiles, "" ∈ df.deps →
       ∃ ms, Finding.unresolvedRefs df.rel ms ∈ (analyze c10inp).errors ∧ "" ∈ ms) ∧
     (∀ df ∈ (analyze c10inp).datafiles, df.id = some "" →
       ∀ m, (analyze c10inp).manifest = some m →
         ∃ e ∈ m.data, e.path = df.rel ∧ e.id = some "") ∧
     ((c10inp.files.map RawFile.rel).Nodup →
       ∀ f ∈ c10inp.files, ∀ content, parseFile f = some content →
         List.lookup "id" content = some (Json.str "") →
         Finding.parseFailed f.rel ∉ (analyze c10inp).errors ∧
         Finding.idNotString f.rel ∉ (analyze c10inp).errors)) ∧
    (analyze c10inp).errors = [] :=
  ⟨C10_empty_string_id c10inp rfl, rfl⟩

theorem resolve_asset_root (assetSet : List String) (fs : FileSys) (c : String)
    (hwf : ∀ p ∈ assetSet, fs.fsExists p = true)
    (h : candMatch assetSet fs c = true) :
    resolve_asset assetSet fs c = some c := by
  unfold resolve_asset
  unfold candMatch at h
  by_cases hm : c ∈ assetSet
  · rw [if_pos hm, if_pos (hwf c hm)]
  · rw [if_neg hm]
    rw [Bool.or_eq_true, decide_eq_true_iff] at h
    rcases h with h | h
    · exact absurd h hm
    · rw [if_pos h]

theorem resolveBases_cons (assetSet : List String) (fs : FileSys) (c base : String)
    (rest : List String) (hwf : ∀ p ∈ assetSet, fs.fsExists p = true) :
    (candMatch assetSet fs (base ++ "/" ++ c) = true →
      resolveBases assetSet fs c (base :: rest) = some (base ++ "/" ++ c)) ∧
    (candMatch assetSet fs (base ++ "/" ++ c) = false →
      resolveBases assetSet fs c (base :: rest) = resolveBases assetSet fs c rest) := by
  constructor
  · intro h
    unfold resolveBases
    unfold candMatch at h
    by_cases hm : base ++ "/" ++ c ∈ assetSet
    · rw [if_pos hm, if_pos (hwf _ hm)]
    · rw [if_neg hm]
      rw [Bool.or_eq_true, decide_eq_true_iff] at h
      rcases h with h | h
      · exact absurd h hm
      · rw [if_pos h]
  · intro h
    unfold resolveBases
    unfold candMatch at h
    rw [Bool.or_eq_false_iff, decide_eq_false_iff_not] at h
    rw [if_neg h.1, if_neg (by simp [h.2])]
    cases rest with
    | nil => rfl
    | cons b r => rfl

theorem resolve_asset_skip_root (assetSet : List String) (fs : FileSys) (c : String)
    (h : candMatch assetSet fs c = false) :
    resolve_asset assetSet fs c = resolveBases assetSet fs c ["res", "resources"] := by
  unfold resolve_asset
  unfold candMatch at h
  rw [Bool.or_eq_false_iff, decide_eq_false_iff_not] at h
  rw [if_neg h.1, if_neg (by simp [h.2])]

/-- The search-order contract of `resolve_asset`: root first, then `res`,
then `resources`, first match wins; nothing matching gives `none`. -/
theorem resolve_asset_order (assetSet : List String) (fs : FileSys) (c : String)
    (hwf : ∀ p ∈ assetSet, fs.fsExists p = true) :
    (candMatch assetSet fs c = true → resolve_asset assetSet fs c = some c) ∧
    (candMatch assetSet fs c = false → candMatch assetSet fs ("res/" ++ c) = true →
      resolve_asset assetSet fs c = some ("res/" ++ c)) ∧
    (candMatch assetSet fs c = false → candMatch assetSet fs ("res/" ++ c) = false →
      candMatch assetSet fs ("resources/" ++ c) = true →
      resolve_asset assetSet fs c = some ("resources/" ++ c)) ∧
    (candMatch assetSet fs c = false → candMatch assetSet fs ("res/" ++ c) = false →
      candMatch assetSet fs ("resources/" ++ c) = false →
      resolve_asset assetSet fs c = none) := by
  refine ⟨resolve_asset_root assetSet fs c hwf, ?_, ?_, ?_⟩
  · intro h0 h1
    rw [resolve_asset_skip_root assetSet fs c h0]
    have := (resolveBases_cons assetSet fs c "res" ["resources"] hwf).1
      (by simpa using h1)
    simpa using this
  · intro h0 h1 h2
    rw [resolve_asset_skip_root assetSet fs c h0]
    rw [(resolveBases_cons assetSet fs c "res" ["resources"] hwf).2 (by simpa using h1)]
    have := (resolveBases_cons assetSet fs c "resources" [] hwf).1
      (by simpa using h2)
    simpa using this
  · intro h0 h1 h2
    rw [resolve_asset_skip_root assetSet fs c h0]
    rw [(resolveBases_cons assetSet fs c "res" ["resources"] hwf).2 (by simpa using h1)]
    rw [(resolveBases_cons assetSet fs c "resources" [] hwf).2 (by simpa using h2)]
    rfl

-- ------------------- strict string order facts -------------------

theorem charLt_cons_lt {a b : Char} (h : a < b) (as bs : List Char) :
    charLt (a :: as) (b :: bs) = true := by simp [charLt, h]

theorem charLt_cons_gt {a b : Char} (h : b < a) (as bs : List Char) :
    charLt (a :: as) (b :: bs) = false := by simp [charLt, h, lt_asymm h]

theorem charLt_cons_eq (a : Char) (as bs : List Char) :
    charLt (a :: as) (a :: bs) = charLt as bs := by simp [charLt]

theorem charLt_irrefl : ∀ as, charLt as as = false
  | [] => rfl
  | a :: as => by rw [charLt_cons_eq]; exact charLt_irrefl as

theorem charLt_asymm : ∀ as bs, charLt as bs = true → charLt bs as = false
  | [], [], h => by cases h
  | [], _ :: _, _ => rfl
  | _ :: _, [], h => by cases h
  | a :: as, b :: bs, h => by
      rcases lt_trichotomy a b with hab | hab | hab
      · exact charLt_cons_gt hab bs as
      · subst hab
        rw [charLt_cons_eq] at h ⊢
        exact charLt_asymm as bs h
      · rw [charLt_cons_gt hab] at h; cases h

theorem charLt_connex : ∀ as bs, charLt as bs = false → charLt bs as = false → as = bs
  | [], [], _, _ => rfl
  | [], _ :: _, h, _ => by cases h
  | _ :: _, [], _, h => by cases h
  | a :: as, b :: bs, h1, h2 => by
      rcases lt_trichotomy a b with hab | hab | hab
      · rw [charLt_cons_lt hab] at h1; cases h1
      · subst hab
        rw [charLt_cons_eq] at h1 h2
        rw [charLt_connex as bs h1 h2]
      · rw [charLt_cons_lt hab] at h2; cases h2

theorem charLt_nil_right : ∀ bs : List Char, charLt bs [] = false
  | [] => rfl
  | _ :: _ => rfl

theorem charLt_trans : ∀ as bs cs, charLt as bs = true → charLt bs cs = true →
    charLt as cs = true
  | [], bs, [], _, h2 => by rw [charLt_nil_right] at h2; cases h2
  | [], _, _ :: _, _, _ => rfl
  | _ :: _, [], _, h1, _ => by cases h1
  | _ :: _, _ :: _, [], _, h2 => by cases h2
  | a :: as, b :: bs, c :: cs, h1, h2 => by
      rcases lt_trichotomy a b with hab | hab | hab
      · rcases lt_trichotomy b c with hbc | hbc | hbc
        · exact charLt_cons_lt (lt_trans hab hbc) as cs
        · subst hbc; exact charLt_cons_lt hab as cs
        · rw [charLt_cons_gt hbc] at h2; cases h2
      · subst hab
        rcases lt_trichotomy a c with hac | hac | hac
        · exact charLt_cons_lt hac as cs
        · subst hac
          rw [charLt_cons_eq] at h1 h2 ⊢
          exact charLt_trans as bs cs h1 h2
        · rw [charLt_cons_gt hac] at h2; cases h2
      · rw [charLt_cons_gt hab] at h1; cases h1

theorem strLt_irrefl (a : String) : strLt a a = false := charLt_irrefl a.data

theorem strLt_asymm {a b : String} (h : strLt a b = true) : strLt b a = false :=
  charLt_asymm a.data b.data h

theorem strLt_connex {a b : String} (h1 : strLt a b = false) (h2 : strLt b a = false) :
    a = b := by
  cases a with | mk da =>
  cases b with | mk db =>
  rw [charLt_connex da db h1 h2]

theorem strLt_trans {a b c : String} (h1 : strLt a b = true) (h2 : strLt b c = true) :
    strLt a c = true := charLt_trans a.data b.data c.data h1 h2

theorem strLt_ne {a b : String} (h : strLt a b = true) : a ≠ b := by
  intro hc
  subst hc
  rw [strLt_irrefl] at h
  cases h

-- ------------------- sortedDedup is strictly sorted -------------------

theorem insertSortedDedup_pairwise (a : String) :
    ∀ (l : List String), l.Pairwise (fun x y => strLt x y = true) →
      (insertSortedDedup a l).Pairwise (fun x y => strLt x y = true)
  | [], _ => List.pairwise_singleton _ a
  | b :: t, h => by
      obtain ⟨hb, ht⟩ := List.pairwise_cons.mp h
      unfold insertSortedDedup
      by_cases h1 : strLt a b = true
      · rw [if_pos h1]
        refine List.pairwise_cons.mpr ⟨?_, h⟩
        intro x hx
        rcases List.mem_cons.mp hx with rfl | hx2
        · exact h1
        · exact strLt_trans h1 (hb x hx2)
      · rw [if_neg h1]
        by_cases h2 : a = b
        · rw [if_pos h2]; exact h
        · rw [if_neg h2]
          refine List.pairwise_cons.mpr ⟨?_, insertSortedDedup_pairwise a t ht⟩
          intro x hx
          rcases (mem_insertSortedDedup t).mp hx with he | hx2
          · subst he
            cases hx3 : strLt b x with
            | true => rfl
            | false =>
                have h1f : strLt x b = false := by
                  cases hab : strLt x b with
                  | false => rfl
                  | true => exact absurd hab h1
                exact absurd (strLt_connex h1f hx3) h2
          · exact hb x hx2

theorem sortedDedup_pairwise_aux :
    ∀ (l acc : List String), acc.Pairwise (fun x y => strLt x y = true) →
      (l.foldl (fun acc x => insertSortedDedup x acc) acc).Pairwise
        (fun x y => strLt x y = true)
  | [], acc, h => h
  | x :: t, acc, h => by
      rw [List.foldl_cons]
      exact sortedDedup_pairwise_aux t _ (insertSortedDedup_pairwise x acc h)

theorem sortedDedup_nodup (l : List String) : (sortedDedup l).Nodup := by
  have := sortedDedup_pairwise_aux l [] List.Pairwise.nil
  exact this.imp (fun h => strLt_ne h)

-- ------------------- counting helpers -------------------

theorem countP_flatMap {α β : Type} (f : α → List β) (p : β → Bool) :
    ∀ l : List α, ((l.flatMap f).countP p) = (l.map (fun x => (f x).countP p)).sum
  | [] => rfl
  | x :: t => by
      rw [List.flatMap_cons, List.countP_append, countP_flatMap f p t,
        List.map_cons, List.sum_cons]

theorem countP_filterMap {α β : Type} (g : α → Option β) (p : β → Bool) :
    ∀ l : List α, ((l.filterMap g).countP p) =
      l.countP (fun x => match g x with | some y => p y | none => false)
  | [] => rfl
  | x :: t => by
      cases hg : g x with
      | none =>
          rw [List.filterMap_cons_none hg, countP_filterMap g p t,
            List.countP_cons]
          simp [hg]
      | some y =>
          rw [List.filterMap_cons_some hg, List.countP_cons,
            countP_filterMap g p t, List.countP_cons]
          simp [hg]

theorem countP_eq_one_of_nodup {α : Type} :
    ∀ (l : List α), l.Nodup → ∀ (ref : α), ref ∈ l →
      ∀ (q : α → Bool), q ref = true → (∀ x ∈ l, q x = true → x = ref) →
      l.countP q = 1
  | [], _, ref, href, _, _, _ => by cases href
  | x :: t, hnd, ref, href, q, hq, honly => by
      obtain ⟨hx, hndt⟩ := List.nodup_cons.mp hnd
      rw [List.countP_cons]
      rcases List.mem_cons.mp href with rfl | href2
      · rw [if_pos hq]
        rw [List.countP_eq_zero.mpr]
        intro y hy hqy
        exact hx ((honly y (List.mem_cons.mpr (Or.inr hy)) hqy) ▸ hy)
      · rw [if_neg (fun hqx =>
          hx ((honly x (List.mem_cons_self x t) hqx) ▸ href2))]
        rw [countP_eq_one_of_nodup t hndt ref href2 q hq
          (fun y hy hqy => honly y (List.mem_cons.mpr (Or.inr hy)) hqy)]

theorem sum_map_single {α β : Type} (key : α → β) :
    ∀ (dfs : List α), (dfs.map key).Nodup → ∀ (df : α), df ∈ dfs →
      ∀ (g : α → Nat), g df = 1 → (∀ x ∈ dfs, key x ≠ key df → g x = 0) →
      (dfs.map g).sum = 1
  | [], _, df, hdf, _, _, _ => by cases hdf
  | x :: t, hnd, df, hdf, g, h1, h0 => by
      rw [List.map_cons, List.nodup_cons] at hnd
      rw [List.map_cons, List.sum_cons]
      rcases List.mem_cons.mp hdf with rfl | hdf2
      · have hzero : (t.map g).sum = 0 := List.sum_eq_zero (by
          intro z hz
          obtain ⟨y, hy, hyz⟩ := List.mem_map.mp hz
          rw [← hyz]
          refine h0 y (List.mem_cons.mpr (Or.inr hy)) ?_
          intro hc
          exact hnd.1 (hc ▸ List.mem_map_of_mem key hy))
        rw [h1, hzero]
      · have hkx : key x ≠ key df := by
          intro hc
          exact hnd.1 (hc ▸ List.mem_map_of_mem key hdf2)
        rw [h0 x (List.mem_cons_self x t) hkx]
        rw [sum_map_single key t hnd.2 df hdf2 g h1
          (fun y hy hky => h0 y (List.mem_cons.mpr (Or.inr hy)) hky)]

/-- Every error `analyze` can report is one of the four error shapes — in
particular a missing asset reference is never among them. -/
theorem analysisErrors_shape (files : List RawFile) :
    ∀ fi ∈ analysisErrors files,
      (∃ r, fi = .parseFailed r) ∨ (∃ r, fi = .idNotString r) ∨
      (∃ i c o, fi = .dupId i c o) ∨ (∃ r ms, fi = .unresolvedRefs r ms) := by
  intro fi hmem
  unfold analysisErrors at hmem
  rcases List.mem_append.mp hmem with hm1 | hm3
  · rcases List.mem_append.mp hm1 with hm1 | hm2
    · obtain ⟨f, -, hfe⟩ := List.mem_flatMap.mp hm1
      unfold fileErrors at hfe
      cases hp : parseFile f with
      | none =>
          rw [hp] at hfe
          rw [List.mem_singleton.mp hfe]
          exact Or.inl ⟨f.rel, rfl⟩
      | some content =>
          rw [hp] at hfe
          dsimp only at hfe
          unfold jidErrors at hfe
          rcases hl : List.lookup "id" content with - | v
          · rw [hl] at hfe
            cases hfe
          · rw [hl] at hfe
            cases v with
            | null => rw [List.mem_singleton.mp hfe]; exact Or.inr (Or.inl ⟨f.rel, rfl⟩)
            | bool b => rw [List.mem_singleton.mp hfe]; exact Or.inr (Or.inl ⟨f.rel, rfl⟩)
            | num n => rw [List.mem_singleton.mp hfe]; exact Or.inr (Or.inl ⟨f.rel, rfl⟩)
            | str s2 => cases hfe
            | arr es => rw [List.mem_singleton.mp hfe]; exact Or.inr (Or.inl ⟨f.rel, rfl⟩)
            | obj ms => rw [List.mem_singleton.mp hfe]; exact Or.inr (Or.inl ⟨f.rel, rfl⟩)
    · unfold dupErrors at hm2
      obtain ⟨p, -, hpe⟩ := List.mem_map.mp hm2
      rw [← hpe]
      exact Or.inr (Or.inr (Or.inl ⟨p.1, p.2 + 1, _, rfl⟩))
  · unfold unresolvedErrors at hm3
    obtain ⟨p, -, hpe⟩ := List.mem_map.mp hm3
    rw [← hpe]
    exact Or.inr (Or.inr (Or.inr ⟨p.1, sortedDedup p.2, rfl⟩))

theorem fileWarnings_shape (f : RawFile) :
    ∀ fi ∈ fileWarnings f, ∃ r, fi = .schemaNotString r := by
  intro fi hfe
  unfold fileWarnings at hfe
  cases hp : parseFile f with
  | none => rw [hp] at hfe; cases hfe
  | some content =>
      rw [hp] at hfe
      dsimp only at hfe
      unfold schemaWarnings at hfe
      rcases hl : List.lookup "$schema" content with - | v
      · rw [hl] at hfe
        cases hfe
      · rw [hl] at hfe
        cases v with
        | null => exact ⟨f.rel, List.mem_singleton.mp hfe⟩
        | bool b => exact ⟨f.rel, List.mem_singleton.mp hfe⟩
        | num n => exact ⟨f.rel, List.mem_singleton.mp hfe⟩
        | str s2 => cases hfe
        | arr es => exact ⟨f.rel, List.mem_singleton.mp hfe⟩
        | obj ms => exact ⟨f.rel, List.mem_singleton.mp hfe⟩

theorem fileErrors_shape (f : RawFile) :
    ∀ fi ∈ fileErrors f, (∃ r, fi = .parseFailed r) ∨ (∃ r, fi = .idNotString r) := by
  intro fi hfe
  unfold fileErrors at hfe
  cases hp : parseFile f with
  | none =>
      rw [hp] at hfe
      exact Or.inl ⟨f.rel, List.mem_singleton.mp hfe⟩
  | some content =>
      rw [hp] at hfe
      dsimp only at hfe
      unfold jidErrors at hfe
      rcases hl : List.lookup "id" content with - | v
      · rw [hl] at hfe
        cases hfe
      · rw [hl] at hfe
        cases v with
        | null => exact Or.inr ⟨f.rel, List.mem_singleton.mp hfe⟩
        | bool b => exact Or.inr ⟨f.rel, List.mem_singleton.mp hfe⟩
        | num n => exact Or.inr ⟨f.rel, List.mem_singleton.mp hfe⟩
        | str s2 => cases hfe
        | arr es => exact Or.inr ⟨f.rel, List.mem_singleton.mp hfe⟩
        | obj ms => exact Or.inr ⟨f.rel, List.mem_singleton.mp hfe⟩

theorem datafile_rels_sublist :
    ∀ files : List RawFile,
      ((files.filterMap dfOf?).map DataFile.rel).Sublist (files.map RawFile.rel)
  | [] => List.Sublist.refl []
  | f :: t => by
      rw [List.map_cons]
      cases hp : parseFile f with
      | none =>
          rw [List.filterMap_cons_none (by unfold dfOf?; rw [hp]; rfl)]
          exact (datafile_rels_sublist t).cons (RawFile.rel f)
      | some content =>
          rw [List.filterMap_cons_some (by unfold dfOf?; rw [hp]; rfl)]
          rw [List.map_cons]
          exact (datafile_rels_sublist t).cons₂ _

theorem datafile_mk_shape :
    ∀ (files : List RawFile) (df : DataFile), df ∈ files.filterMap dfOf? →
      ∃ f ∈ files, ∃ content, parseFile f = some content ∧ df = mkDf f content := by
  intro files df hdf
  obtain ⟨f, hf, hfd⟩ := List.mem_filterMap.mp hdf
  unfold dfOf? at hfd
  cases hp : parseFile f with
  | none => rw [hp] at hfd; cases hfd
  | some content =>
      rw [hp] at hfd
      cases hfd
      exact ⟨f, hf, content, hp, rfl⟩

/-- C4: asset references resolve root-first, then `res`, then `resources`
(first match wins); an unresolved reference yields exactly one warning per
(record, reference), never an error; and warnings alone leave the exit
status zero without `--fail-on-warning`. -/
theorem C4_asset_resolution_and_warnings (inp : AnalyzeInput)
    (hdir : inp.dataDirExists = true)
    (hnd : (inp.files.map RawFile.rel).Nodup)
    (hwf : ∀ p ∈ inp.assets.map (fun a => partsPosix a.parts),
      inp.fs.fsExists p = true) :
    (∀ c, (candMatch (inp.assets.map (fun a => partsPosix a.parts)) inp.fs c = true →
        resolve_asset (inp.assets.map (fun a => partsPosix a.parts)) inp.fs c = some c) ∧
      (candMatch (inp.assets.map (fun a => partsPosix a.parts)) inp.fs c = false →
        candMatch (inp.assets.map (fun a => partsPosix a.parts)) inp.fs ("res/" ++ c) = true →
        resolve_asset (inp.assets.map (fun a => partsPosix a.parts)) inp.fs c =
          some ("res/" ++ c)) ∧
      (candMatch (inp.assets.map (fun a => partsPosix a.parts)) inp.fs c = false →
        candMatch (inp.assets.map (fun a => partsPosix a.parts)) inp.fs ("res/" ++ c) = false →
        candMatch (inp.assets.map (fun a => partsPosix a.parts)) inp.fs ("resources/" ++ c) = true →
        resolve_asset (inp.assets.map (fun a => partsPosix a.parts)) inp.fs c =
          some ("resources/" ++ c)) ∧
      (candMatch (inp.assets.map (fun a => partsPosix a.parts)) inp.fs c = false →
        candMatch (inp.assets.map (fun a => partsPosix a.parts)) inp.fs ("res/" ++ c) = false →
        candMatch (inp.assets.map (fun a => partsPosix a.parts)) inp.fs ("resources/" ++ c) = false →
        resolve_asset (inp.assets.map (fun a => partsPosix a.parts)) inp.fs c = none)) ∧
    (∀ df ∈ (analyze inp).datafiles, ∀ ref ∈ df.assetRefs,
      resolve_asset (inp.assets.map (fun a => partsPosix a.parts)) inp.fs ref = none →
      (analyze inp).warnings.countP (isMissingAssetFor df.rel ref) = 1) ∧
    (∀ rel ref, Finding.missingAsset rel ref ∉ (analyze inp).errors) ∧
    ((analyze inp).errors = [] → inp.failOnWarning = false →
      (analyze inp).exitCode = 0) := by
  obtain ⟨hDf, -, -, hE, hW, -, -, -, hX⟩ := analyze_fields inp hdir
  refine ⟨fun c => resolve_asset_order _ inp.fs c hwf, ?_, ?_, ?_⟩
  · intro df hdf ref href hres
    rw [hDf] at hdf
    rw [hW]
    unfold analysisWarnings
    rw [List.countP_append, List.countP_append, List.countP_append]
    have c1 : (if inp.files.isEmpty then [Finding.noJsonFiles] else []).countP
        (isMissingAssetFor df.rel ref) = 0 := by
      cases inp.files.isEmpty with
      | true => simp [isMissingAssetFor]
      | false => simp
    have c2 : (inp.files.flatMap fileWarnings).countP
        (isMissingAssetFor df.rel ref) = 0 := by
      rw [List.countP_eq_zero]
      intro fi hfi
      obtain ⟨f, -, hfe⟩ := List.mem_flatMap.mp hfi
      obtain ⟨r, rfl⟩ := fileWarnings_shape f fi hfe
      simp [isMissingAssetFor]
    have c4 : (schemaPhase (inp.files.filterMap dfOf?)).countP
        (isMissingAssetFor df.rel ref) = 0 := by
      rw [List.countP_eq_zero]
      intro fi hfi
      unfold schemaPhase at hfi
      obtain ⟨df2, -, hfd⟩ := List.mem_filterMap.mp hfi
      cases hs : df2.schema with
      | none => rw [hs] at hfd; cases hfd
      | some s2 =>
          rw [hs] at hfd
          dsimp only at hfd
          cases hfd
          simp [isMissingAssetFor]
    have c3 : (assetWarnings (inp.assets.map (fun a => partsPosix a.parts)) inp.fs
        (inp.files.filterMap dfOf?)).countP (isMissingAssetFor df.rel ref) = 1 := by
      unfold assetWarnings
      rw [countP_flatMap]
      refine sum_map_single DataFile.rel _ ((datafile_rels_sublist inp.files).nodup hnd)
        df hdf _ ?_ ?_
      · rw [countP_filterMap]
        obtain ⟨f, -, content, -, hdfe⟩ := datafile_mk_shape inp.files df hdf
        have hrnd : df.assetRefs.Nodup := by
          rw [hdfe]
          exact sortedDedup_nodup _
        refine countP_eq_one_of_nodup df.assetRefs hrnd ref href _ ?_ ?_
        · rw [hres]
          simp [isMissingAssetFor]
        · intro x hxmem hx
          by_cases hrx : (resolve_asset (inp.assets.map (fun a => partsPosix a.parts))
              inp.fs x).isNone = true
          · rw [if_pos hrx] at hx
            dsimp only [isMissingAssetFor] at hx
            rw [Bool.and_eq_true] at hx
            exact eq_of_beq hx.2
          · rw [if_neg hrx] at hx
            cases hx
      · intro x hx hxrel
        rw [countP_filterMap, List.countP_eq_zero]
        intro ref2 href2
        by_cases hrx : (resolve_asset (inp.assets.map (fun a => partsPosix a.parts))
            inp.fs ref2).isNone = true
        · rw [if_pos hrx]
          dsimp only [isMissingAssetFor]
          rw [Bool.and_eq_true]
          rintro ⟨hx1, -⟩
          exact hxrel (eq_of_beq hx1)
        · rw [if_neg hrx]
          exact fun hc => by cases hc
    rw [c1, c2, c3, c4]
  · intro rel ref hmem
    rw [hE] at hmem
    rcases analysisErrors_shape inp.files _ hmem with ⟨r, he⟩ | ⟨r, he⟩ |
      ⟨i, cc, o, he⟩ | ⟨r, ms, he⟩ <;> cases he
  · intro he hf
    rw [hX, hE] at *
    rw [if_neg (by rw [hE] at he; simp [he])]
    rw [if_neg (by rw [hf]; rintro ⟨hc, -⟩; cases hc)]

theorem C4_asset_resolution_and_warnings_witness :
    (analyze c4inp).warnings.countP
      (isMissingAssetFor "data/a.json" "textures/missing.png") = 1 ∧
    (∀ rel ref, Finding.missingAsset rel ref ∉ (analyze c4inp).errors) ∧
    ((analyze c4inp).errors = [] → c4inp.failOnWarning = false →
      (analyze c4inp).exitCode = 0) :=
  have h := C4_asset_resolution_and_warnings c4inp rfl (by decide)
    (fun p hp => by cases hp)
  ⟨h.2.1 c4df (List.mem_cons_self _ _) "textures/missing.png"
    (List.mem_cons_self _ _) rfl, h.2.2.1, h.2.2.2⟩

-- ------------------- C3 support -------------------

theorem addMissing_fresh : ∀ (acc : List (String × List String)) (rel : String)
    (ms : List String), rel ∉ acc.map Prod.fst →
    addMissing rel ms acc = acc ++ [(rel, ms)]
  | [], rel, ms, _ => rfl
  | (r, l) :: t, rel, ms, hf => by
      rw [List.map_cons] at hf
      unfold addMissing
      rw [if_neg (fun hc => hf (List.mem_cons.mpr (Or.inl hc.symm)))]
      rw [addMissing_fresh t rel ms (fun hc => hf (List.mem_cons.mpr (Or.inr hc)))]
      rfl

theorem collectUnresolvedAux_eq (known : List String) :
    ∀ (dfs : List DataFile) (acc : List (String × List String)),
      (dfs.map DataFile.rel).Nodup →
      (∀ df ∈ dfs, df.rel ∉ acc.map Prod.fst) →
      collectUnresolvedAux known acc dfs =
        acc ++ (dfs.filter (fun df =>
          decide (df.deps.filter (fun d => ¬ d ∈ known) ≠ []))).map
          (fun df => (df.rel, df.deps.filter (fun d => ¬ d ∈ known)))
  | [], acc, _, _ => by simp [collectUnresolvedAux]
  | df :: rest, acc, hnd, hacc => by
      rw [List.map_cons, List.nodup_cons] at hnd
      unfold collectUnresolvedAux
      by_cases hm : df.deps.filter (fun d => ¬ d ∈ known) ≠ []
      · rw [if_pos hm]
        rw [addMissing_fresh acc df.rel _ (hacc df (List.mem_cons_self df rest))]
        rw [collectUnresolvedAux_eq known rest (acc ++ [(df.rel, _)]) hnd.2 ?side]
        case side =>
          intro df2 hdf2
          rw [List.map_append, List.mem_append]
          rintro (hc | hc)
          · exact hacc df2 (List.mem_cons.mpr (Or.inr hdf2)) hc
          · have he2 : df2.rel = df.rel := by simpa using hc
            exact hnd.1 (he2 ▸ List.mem_map_of_mem DataFile.rel hdf2)
        rw [List.filter_cons_of_pos (by simpa using hm), List.map_cons]
        simp
      · rw [if_neg hm]
        rw [collectUnresolvedAux_eq known rest acc hnd.2
          (fun df2 hdf2 => hacc df2 (List.mem_cons.mpr (Or.inr hdf2)))]
        rw [List.filter_cons_of_neg (by simpa using hm)]

/-- C3: each record with identifier references absent from the index gets
exactly one error line, carrying the sorted deduplicated missing
identifiers, and the exit status is then non-zero. -/
theorem C3_unresolved_references (inp : AnalyzeInput)
    (hdir : inp.dataDirExists = true)
    (hnd : (inp.files.map RawFile.rel).Nodup)
    (df : DataFile) (hdf : df ∈ (analyze inp).datafiles)
    (hmiss : df.deps.filter
      (fun d => ¬ d ∈ (analyze inp).idIndex.map Prod.fst) ≠ []) :
    (analyze inp).errors.countP (isUnresolvedFor df.rel) = 1 ∧
    Finding.unresolvedRefs df.rel (sortedDedup (df.deps.filter
      (fun d => ¬ d ∈ (analyze inp).idIndex.map Prod.fst))) ∈ (analyze inp).errors ∧
    (analyze inp).exitCode = 1 := by
  obtain ⟨hDf, hI, -, hE, -, -, -, -, hX⟩ := analyze_fields inp hdir
  rw [hDf] at hdf
  rw [hI] at hmiss
  have hndd : ((inp.files.filterMap dfOf?).map DataFile.rel).Nodup :=
    (datafile_rels_sublist inp.files).nodup hnd
  have hchar := collectUnresolvedAux_eq ((finalIndex inp.files).1.map Prod.fst)
    (inp.files.filterMap dfOf?) [] hndd (fun _ _ hc => by cases hc)
  have hfilter_mem : df ∈ (inp.files.filterMap dfOf?).filter (fun df2 =>
      decide (df2.deps.filter
        (fun d => ¬ d ∈ (finalIndex inp.files).1.map Prod.fst) ≠ [])) := by
    rw [List.mem_filter]
    exact ⟨hdf, by simpa using hmiss⟩
  have hfilter_nd : (((inp.files.filterMap dfOf?).filter (fun df2 =>
      decide (df2.deps.filter
        (fun d => ¬ d ∈ (finalIndex inp.files).1.map Prod.fst) ≠ []))).map
        DataFile.rel).Nodup :=
    ((List.filter_sublist _).map DataFile.rel).nodup hndd
  have hmem : Finding.unresolvedRefs df.rel (sortedDedup (df.deps.filter
      (fun d => ¬ d ∈ (finalIndex inp.files).1.map Prod.fst))) ∈
      analysisErrors inp.files := by
    unfold analysisErrors
    refine List.mem_append.mpr (Or.inr ?_)
    unfold unresolvedErrors collectUnresolved
    rw [hchar]
    simp only [List.nil_append]
    refine List.mem_map.mpr ?_
    refine ⟨(df.rel, df.deps.filter
      (fun d => ¬ d ∈ (finalIndex inp.files).1.map Prod.fst)), ?_, rfl⟩
    exact List.mem_map.mpr ⟨df, hfilter_mem, rfl⟩
  refine ⟨?_, ?_, ?_⟩
  · rw [hE]
    unfold analysisErrors
    rw [List.countP_append, List.countP_append]
    have c1 : (inp.files.flatMap fileErrors).countP (isUnresolvedFor df.rel) = 0 := by
      rw [List.countP_eq_zero]
      intro fi hfi
      obtain ⟨f, -, hfe⟩ := List.mem_flatMap.mp hfi
      rcases fileErrors_shape f fi hfe with ⟨r, rfl⟩ | ⟨r, rfl⟩ <;>
        exact fun hc => by cases hc
    have c2 : (dupErrors (finalIndex inp.files).1 (finalIndex inp.files).2).countP
        (isUnresolvedFor df.rel) = 0 := by
      rw [List.countP_eq_zero]
      intro fi hfi
      unfold dupErrors at hfi
      obtain ⟨p, -, hpe⟩ := List.mem_map.mp hfi
      rw [← hpe]
      exact fun hc => by cases hc
    have c3 : (unresolvedErrors inp.files).countP (isUnresolvedFor df.rel) = 1 := by
      unfold unresolvedErrors collectUnresolved
      rw [hchar]
      simp only [List.nil_append]
      rw [List.countP_map, List.countP_map]
      refine countP_eq_one_of_nodup _ ((List.filter_sublist _).nodup
        (List.Nodup.of_map DataFile.rel hndd)) df hfilter_mem _ ?_ ?_
      · simp [Function.comp, isUnresolvedFor]
      · intro x hxmem hx
        simp only [Function.comp, isUnresolvedFor] at hx
        refine map_nodup_inj DataFile.rel _ hfilter_nd x hxmem df hfilter_mem ?_
        exact eq_of_beq hx
    rw [c1, c2, c3]
  · rw [hE]
    rw [hI]
    exact hmem
  · rw [hX]
    rw [if_pos (by
      intro hc
      rw [hc] at hmem
      cases hmem)]

theorem C3_unresolved_references_witness :
    (analyze c3inp).errors.countP (isUnresolvedFor "data/w3.json") = 1 ∧
    Finding.unresolvedRefs "data/w3.json" (sortedDedup (c3df.deps.filter
      (fun d => ¬ d ∈ (analyze c3inp).idIndex.map Prod.fst))) ∈ (analyze c3inp).errors ∧
    (analyze c3inp).exitCode = 1 :=
  C3_unresolved_references c3inp rfl (by decide) c3df (List.mem_cons_self _ _) (by decide)

theorem lookup_append (k : String) : ∀ (l1 l2 : List (String × String)),
    List.lookup k (l1 ++ l2) = (List.lookup k l1).or (List.lookup k l2)
  | [], l2 => by simp [Option.none_or]
  | (a, b) :: t, l2 => by
      rw [List.cons_append, List.lookup, List.lookup]
      cases h : k == a with
      | true => rfl
      | false => exact lookup_append k t l2

theorem lookup_singleton (k a : String) (b : String) :
    List.lookup k [(a, b)] = if k = a then some b else none := by
  rw [List.lookup]
  by_cases h : k = a
  · rw [if_pos h]
    have : (k == a) = true := beq_iff_eq.mpr h
    rw [this]
  · rw [if_neg h]
    have : (k == a) = false := beq_eq_false_iff_ne.mpr h
    rw [this]
    rfl

/-- The declared identifier check embedded in `if jid:` for a fixed
non-empty identifier `s`. -/
theorem foldl_dfIndexStep_lookup (s : String) (hs : s ≠ "") :
    ∀ (dfs : List DataFile) (idx : List (String × String)) (dups : List (String × Nat)),
      List.lookup s ((dfs.foldl dfIndexStep (idx, dups)).1) =
        (List.lookup s idx).or
          ((dfs.find? (fun df => df.id == some s)).map DataFile.rel)
  | [], idx, dups => by simp [Option.or_none]
  | df :: rest, idx, dups => by
      rw [List.foldl_cons]
      rcases hid : df.id with - | t
      · have hstep : dfIndexStep (idx, dups) df = (idx, dups) := by
          unfold dfIndexStep indexStep
          rw [hid]
        rw [hstep, foldl_dfIndexStep_lookup s hs rest idx dups,
          List.find?_cons_of_neg _ (by rw [hid]; exact fun hc => by simp at hc)]
      · by_cases ht : t = ""
        · have hstep : dfIndexStep (idx, dups) df = (idx, dups) := by
            unfold dfIndexStep indexStep
            rw [hid]
            dsimp only
            rw [if_neg (by rw [ht]; exact fun hc => hc rfl)]
          rw [hstep, foldl_dfIndexStep_lookup s hs rest idx dups,
            List.find?_cons_of_neg _ (by
              rw [hid]
              intro hc
              have : t = s := by simpa using hc
              exact hs (by rw [← this, ht]))]
        · by_cases ho : (List.lookup t idx).isSome
          · have hstep : dfIndexStep (idx, dups) df = (idx, bumpCounter dups t) := by
              unfold dfIndexStep indexStep
              rw [hid]
              dsimp only
              rw [if_pos ht, if_pos ho]
            rw [hstep, foldl_dfIndexStep_lookup s hs rest idx _]
            by_cases hts : t = s
            · subst hts
              rw [List.find?_cons_of_pos _ (by rw [hid]; simp)]
              rw [Option.or_of_isSome ho]
              rw [Option.map_some']
              rw [Option.or_of_isSome ho]
            · rw [List.find?_cons_of_neg _ (by
                rw [hid]
                intro hc
                exact hts (by simpa using hc))]
          · have hstep : dfIndexStep (idx, dups) df = (idx ++ [(t, df.rel)], dups) := by
              unfold dfIndexStep indexStep
              rw [hid]
              dsimp only
              rw [if_pos ht, if_neg ho]
            rw [hstep, foldl_dfIndexStep_lookup s hs rest _ dups]
            rw [lookup_append, lookup_singleton]
            by_cases hts : s = t
            · rw [if_pos hts]
              subst hts
              rw [List.find?_cons_of_pos _ (by rw [hid]; simp)]
              have hnone : List.lookup s idx = none := by
                cases hl : List.lookup s idx with
                | none => rfl
                | some v => rw [hl] at ho; exact absurd rfl ho
              rw [hnone, Option.none_or, Option.none_or, Option.map_some']
              exact Option.or_of_isSome rfl
            · rw [if_neg hts, Option.or_none]
              have hneg : ¬((df.id == some s) = true) := by
                rw [hid]
                intro hc
                have hts2 : t = s := by simpa using hc
                exact hts hts2.symm
              rw [List.find?_cons_of_neg (p := fun df => df.id == some s) rest hneg]

theorem bumpCounter_natOf : ∀ (l : List (String × Nat)) (s : String),
    natOf (List.lookup s (bumpCounter l s)) = natOf (List.lookup s l) + 1
  | [], s => by
      simp [bumpCounter, List.lookup, natOf]
  | (k, n) :: t, s => by
      rw [bumpCounter]
      by_cases hk : k = s
      · rw [if_pos hk]
        subst hk
        rw [List.lookup, List.lookup]
        rw [show (k == k) = true from beq_iff_eq.mpr rfl]
        simp [natOf]
      · rw [if_neg hk]
        rw [List.lookup, List.lookup]
        cases hsk : s == k with
        | true => exact absurd (beq_iff_eq.mp hsk).symm hk
        | false => exact bumpCounter_natOf t s

theorem bumpCounter_lookup_other : ∀ (l : List (String × Nat)) (s u : String),
    u ≠ s → List.lookup u (bumpCounter l s) = List.lookup u l
  | [], s, u, hu => by
      rw [bumpCounter, List.lookup, List.lookup]
      rw [show (u == s) = false from beq_eq_false_iff_ne.mpr hu]
      rfl
  | (k, n) :: t, s, u, hu => by
      rw [bumpCounter]
      by_cases hk : k = s
      · rw [if_pos hk]
        rw [List.lookup, List.lookup]
        cases hsk : u == k with
        | true =>
            have hus : u = s := hk ▸ (beq_iff_eq.mp hsk)
            exact absurd hus hu
        | false => rfl
      · rw [if_neg hk]
        rw [List.lookup, List.lookup]
        cases hsk : u == k with
        | true => rfl
        | false => exact bumpCounter_lookup_other t s u hu

/-- The duplicate counter of a fixed non-empty identifier: every occurrence
past the first-owned one increments it. -/
theorem foldl_dfIndexStep_count (s : String) (hs : s ≠ "") :
    ∀ (dfs : List DataFile) (idx : List (String × String)) (dups : List (String × Nat)),
      natOf (List.lookup s ((dfs.foldl dfIndexStep (idx, dups)).2)) =
        natOf (List.lookup s dups) +
          (if (List.lookup s idx).isSome then dfs.countP (fun df => df.id == some s)
           else dfs.countP (fun df => df.id == some s) - 1)
  | [], idx, dups => by
      simp [List.countP_nil]
  | df :: rest, idx, dups => by
      rw [List.foldl_cons, List.countP_cons]
      rcases hid : df.id with - | t
      · have hstep : dfIndexStep (idx, dups) df = (idx, dups) := by
          unfold dfIndexStep indexStep
          rw [hid]
        rw [hstep, foldl_dfIndexStep_count s hs rest idx dups]
        simp
      · by_cases ht : t = ""
        · have hstep : dfIndexStep (idx, dups) df = (idx, dups) := by
            unfold dfIndexStep indexStep
            rw [hid]
            dsimp only
            rw [if_neg (by rw [ht]; exact fun hc => hc rfl)]
          have hts : ¬ t = s := fun hc => hs (ht ▸ hc ▸ rfl)
          rw [hstep, foldl_dfIndexStep_count s hs rest idx dups]
          simp [hts]
        · by_cases hts : t = s
          · subst hts
            by_cases ho : (List.lookup t idx).isSome
            · have hstep : dfIndexStep (idx, dups) df = (idx, bumpCounter dups t) := by
                unfold dfIndexStep indexStep
                rw [hid]
                dsimp only
                rw [if_pos ht, if_pos ho]
              rw [hstep, foldl_dfIndexStep_count t hs rest idx _,
                bumpCounter_natOf, if_pos ho, if_pos ho]
              simp only [beq_self_eq_true, if_pos]
              omega
            · have hstep : dfIndexStep (idx, dups) df =
                  (idx ++ [(t, df.rel)], dups) := by
                unfold dfIndexStep indexStep
                rw [hid]
                dsimp only
                rw [if_pos ht, if_neg ho]
              have hnone : List.lookup t idx = none := by
                cases hl : List.lookup t idx with
                | none => rfl
                | some v => rw [hl] at ho; exact absurd rfl ho
              have hsome2 : (List.lookup t (idx ++ [(t, df.rel)])).isSome = true := by
                rw [lookup_append, lookup_singleton, hnone, if_pos rfl]
                rfl
              rw [hstep, foldl_dfIndexStep_count t hs rest _ dups,
                if_pos hsome2, if_neg ho]
              simp only [beq_self_eq_true, if_pos]
              omega
          · by_cases ho : (List.lookup t idx).isSome
            · have hstep : dfIndexStep (idx, dups) df = (idx, bumpCounter dups t) := by
                unfold dfIndexStep indexStep
                rw [hid]
                dsimp only
                rw [if_pos ht, if_pos ho]
              rw [hstep, foldl_dfIndexStep_count s hs rest idx _,
                bumpCounter_lookup_other dups t s (fun hc => hts hc.symm)]
              simp [hts]
            · have hstep : dfIndexStep (idx, dups) df =
                  (idx ++ [(t, df.rel)], dups) := by
                unfold dfIndexStep indexStep
                rw [hid]
                dsimp only
                rw [if_pos ht, if_neg ho]
              have hsame : List.lookup s (idx ++ [(t, df.rel)]) = List.lookup s idx := by
                rw [lookup_append, lookup_singleton,
                  if_neg (fun hc => hts hc.symm), Option.or_none]
              rw [hstep, foldl_dfIndexStep_count s hs rest _ dups, hsame]
              simp [hts]

theorem lookup_isSome_iff {β : Type} (k : String) : ∀ (l : List (String × β)),
    (List.lookup k l).isSome = true ↔ k ∈ l.map Prod.fst
  | [] => by simp [List.lookup]
  | (a, b) :: t => by
      rw [List.lookup, List.map_cons, List.mem_cons]
      cases hk : k == a with
      | true =>
          simp only [Option.isSome_some, true_iff]
          exact Or.inl (beq_iff_eq.mp hk)
      | false =>
          rw [lookup_isSome_iff k t]
          constructor
          · exact Or.inr
          · rintro (hc | h)
            · exact absurd (beq_iff_eq.mpr hc) (by rw [hk]; exact fun h2 => by cases h2)
            · exact h

theorem lookup_mem {β : Type} (k : String) : ∀ (l : List (String × β)) (v : β),
    List.lookup k l = some v → (k, v) ∈ l
  | [], v, h => by cases h
  | (a, b) :: t, v, h => by
      rw [List.lookup] at h
      cases hk : k == a with
      | true =>
          rw [hk] at h
          cases h
          rw [beq_iff_eq.mp hk]
          exact List.mem_cons_self _ _
      | false =>
          rw [hk] at h
          exact List.mem_cons.mpr (Or.inr (lookup_mem k t v h))

theorem lookup_of_mem_nodup {β : Type} (k : String) :
    ∀ (l : List (String × β)) (v : β), (l.map Prod.fst).Nodup → (k, v) ∈ l →
      List.lookup k l = some v
  | [], v, _, h => by cases h
  | (a, b) :: t, v, hnd, h => by
      rw [List.map_cons, List.nodup_cons] at hnd
      rw [List.lookup]
      rcases List.mem_cons.mp h with he | h2
      · obtain ⟨he1, he2⟩ := (Prod.mk.injEq _ _ _ _).mp he
        rw [show (k == a) = true from beq_iff_eq.mpr he1]
        rw [he2]
      · cases hk : k == a with
        | true =>
            have hka : k = a := beq_iff_eq.mp hk
            have hkm : k ∈ t.map Prod.fst := List.mem_map_of_mem Prod.fst h2
            rw [hka] at hkm
            exact absurd hkm hnd.1
        | false => exact lookup_of_mem_nodup k t v hnd.2 h2

theorem bumpCounter_keys : ∀ (l : List (String × Nat)) (s : String),
    (bumpCounter l s).map Prod.fst =
      if s ∈ l.map Prod.fst then l.map Prod.fst else l.map Prod.fst ++ [s]
  | [], s => by simp [bumpCounter]
  | (k, n) :: t, s => by
      rw [bumpCounter]
      by_cases hk : k = s
      · rw [if_pos hk, List.map_cons, List.map_cons,
          if_pos (List.mem_cons.mpr (Or.inl hk.symm))]
      · rw [if_neg hk, List.map_cons, List.map_cons, bumpCounter_keys t s]
        by_cases hm : s ∈ t.map Prod.fst
        · rw [if_pos hm, if_pos (List.mem_cons.mpr (Or.inr hm))]
        · rw [if_neg hm, if_neg (by
            rw [List.mem_cons]
            rintro (hc | hc)
            · exact hk hc.symm
            · exact hm hc)]
          rfl

theorem foldl_dfIndexStep_dups_nodup :
    ∀ (dfs : List DataFile) (acc : List (String × String) × List (String × Nat)),
      (acc.2.map Prod.fst).Nodup →
      (((dfs.foldl dfIndexStep acc).2).map Prod.fst).Nodup
  | [], acc, h => h
  | df :: rest, acc, h => by
      rw [List.foldl_cons]
      refine foldl_dfIndexStep_dups_nodup rest (dfIndexStep acc df) ?_
      unfold dfIndexStep indexStep
      rcases hid : df.id with - | t
      · exact h
      · dsimp only
        by_cases ht : t ≠ ""
        · rw [if_pos ht]
          by_cases ho : (List.lookup t acc.1).isSome
          · rw [if_pos ho]
            dsimp only
            rw [bumpCounter_keys]
            by_cases hm : t ∈ acc.2.map Prod.fst
            · rw [if_pos hm]; exact h
            · rw [if_neg hm]
              rw [List.nodup_append]
              exact ⟨h, List.nodup_singleton t, by simpa using hm⟩
          · rw [if_neg ho]; exact h
        · rw [if_neg ht]; exact h

theorem bumpCounter_pos : ∀ (l : List (String × Nat)) (s : String),
    (∀ p ∈ l, 1 ≤ p.2) → ∀ p ∈ bumpCounter l s, 1 ≤ p.2
  | [], s, _, p, hp => by
      rw [bumpCounter] at hp
      rw [List.mem_singleton.mp hp]
  | (k, n) :: t, s, h, p, hp => by
      rw [bumpCounter] at hp
      by_cases hk : k = s
      · rw [if_pos hk] at hp
        rcases List.mem_cons.mp hp with he | hp2
        · rw [he]
          simp
        · exact h p (List.mem_cons.mpr (Or.inr hp2))
      · rw [if_neg hk] at hp
        rcases List.mem_cons.mp hp with he | hp2
        · rw [he]
          exact h (k, n) (List.mem_cons_self _ _)
        · exact bumpCounter_pos t s (fun q hq => h q (List.mem_cons.mpr (Or.inr hq)))
            p hp2

theorem foldl_dfIndexStep_dups_pos :
    ∀ (dfs : List DataFile) (acc : List (String × String) × List (String × Nat)),
      (∀ p ∈ acc.2, 1 ≤ p.2) →
      ∀ p ∈ (dfs.foldl dfIndexStep acc).2, 1 ≤ p.2
  | [], acc, h => h
  | df :: rest, acc, h => by
      rw [List.foldl_cons]
      refine foldl_dfIndexStep_dups_pos rest (dfIndexStep acc df) ?_
      unfold dfIndexStep indexStep
      rcases hid : df.id with - | t
      · exact h
      · dsimp only
        by_cases ht : t ≠ ""
        · rw [if_pos ht]
          by_cases ho : (List.lookup t acc.1).isSome
          · rw [if_pos ho]
            dsimp only
            intro p hp
            exact bumpCounter_pos acc.2 t h p hp
          · rw [if_neg ho]; exact h
        · rw [if_neg ht]; exact h

theorem find?_eq_head?_filter {α : Type} (p : α → Bool) :
    ∀ l : List α, l.find? p = (l.filter p).head?
  | [] => rfl
  | x :: t => by
      cases hx : p x with
      | true =>
          rw [List.find?_cons_of_pos t hx, List.filter_cons_of_pos hx]
          rfl
      | false =>
          rw [List.find?_cons_of_neg t (by rw [hx]; exact fun hc => by cases hc),
            List.filter_cons_of_neg (by rw [hx]; exact fun hc => by cases hc)]
          exact find?_eq_head?_filter p t

theorem charLe_refl : ∀ as : List Char, charLe as as = true
  | [] => rfl
  | a :: as => by rw [charLe_cons_eq]; exact charLe_refl as

theorem strLe_refl (a : String) : strLe a a = true := charLe_refl a.data

theorem countP_beq_keys (s : String) : ∀ (l : List String), l.Nodup →
    l.countP (fun k => k == s) = if s ∈ l then 1 else 0 := by
  intro l hnd
  by_cases hm : s ∈ l
  · rw [if_pos hm]
    exact countP_eq_one_of_nodup l hnd s hm _ (beq_iff_eq.mpr rfl)
      (fun x _ hx => beq_iff_eq.mp hx)
  · rw [if_neg hm]
    rw [List.countP_eq_zero]
    intro x hx hbx
    exact hm ((beq_iff_eq.mp hbx) ▸ hx)

/-- C2 (amended): the canonical owner of an identifier is its FIRST
occurrence in the order `collect_json_files` enumerates files (the source
does not sort this order); later occurrences only bump the duplicate
counter and never overwrite the owner; a duplicated identifier yields
exactly one error whose occurrence count is the number of declaring records
and whose first-seen owner is that first occurrence; and when the
enumeration order is path-sorted, the first occurrence is the
lexicographically least declaring path. -/
theorem C2_duplicate_identifiers (inp : AnalyzeInput)
    (hdir : inp.dataDirExists = true) (s : String) (hs : s ≠ "") :
    List.lookup s (analyze inp).idIndex =
      (((analyze inp).datafiles.filter (fun df => df.id == some s)).head?).map
        DataFile.rel ∧
    ((analyze inp).errors.countP (isDupIdFor s) =
      if 2 ≤ ((analyze inp).datafiles.filter (fun df => df.id == some s)).length
      then 1 else 0) ∧
    (∀ c o, Finding.dupId s c o ∈ (analyze inp).errors →
      c = ((analyze inp).datafiles.filter (fun df => df.id == some s)).length ∧
      o = (((analyze inp).datafiles.filter (fun df => df.id == some s)).head?).map
        DataFile.rel) ∧
    (inp.files.Pairwise (fun f g => strLe f.rel g.rel = true) →
      ∀ df0, ((analyze inp).datafiles.filter (fun df => df.id == some s)).head? =
        some df0 →
      ∀ df ∈ (analyze inp).datafiles.filter (fun df => df.id == some s),
        strLe df0.rel df.rel = true) := by
  obtain ⟨hDf, hI, hD, hE, -, -, -, -, -⟩ := analyze_fields inp hdir
  have hlook := foldl_dfIndexStep_lookup s hs (inp.files.filterMap dfOf?) [] []
  have hcount := foldl_dfIndexStep_count s hs (inp.files.filterMap dfOf?) [] []
  have hkeysnd : (((finalIndex inp.files).2).map Prod.fst).Nodup :=
    foldl_dfIndexStep_dups_nodup (inp.files.filterMap dfOf?) ([], []) List.nodup_nil
  have hpos : ∀ p ∈ (finalIndex inp.files).2, 1 ≤ p.2 :=
    foldl_dfIndexStep_dups_pos (inp.files.filterMap dfOf?) ([], [])
      (fun p hp => by cases hp)
  have howner : List.lookup s (finalIndex inp.files).1 =
      (((inp.files.filterMap dfOf?).filter (fun df => df.id == some s)).head?).map
        DataFile.rel := by
    rw [show (finalIndex inp.files).1 =
      ((inp.files.filterMap dfOf?).foldl dfIndexStep ([], [])).1 from rfl]
    rw [hlook, find?_eq_head?_filter]
    simp [Option.none_or]
  have hnat : natOf (List.lookup s (finalIndex inp.files).2) =
      (inp.files.filterMap dfOf?).countP (fun df => df.id == some s) - 1 := by
    rw [show (finalIndex inp.files).2 =
      ((inp.files.filterMap dfOf?).foldl dfIndexStep ([], [])).2 from rfl]
    rw [hcount]
    simp [natOf, List.lookup]
  have hmemkeys : (s ∈ ((finalIndex inp.files).2).map Prod.fst) ↔
      2 ≤ (inp.files.filterMap dfOf?).countP (fun df => df.id == some s) := by
    constructor
    · intro hm
      have hsome : (List.lookup s (finalIndex inp.files).2).isSome = true :=
        (lookup_isSome_iff s _).mpr hm
      cases hl : List.lookup s (finalIndex inp.files).2 with
      | none => rw [hl] at hsome; cases hsome
      | some v =>
          have hv : 1 ≤ v := hpos (s, v) (lookup_mem s _ v hl)
          have : natOf (List.lookup s (finalIndex inp.files).2) = v := by
            rw [hl]; rfl
          rw [hnat] at this
          omega
    · intro h2
      have : 1 ≤ natOf (List.lookup s (finalIndex inp.files).2) := by
        rw [hnat]; omega
      cases hl : List.lookup s (finalIndex inp.files).2 with
      | none => rw [hl] at this; simp [natOf] at this
      | some v =>
          refine (lookup_isSome_iff s _).mp ?_
          rw [hl]
          rfl
  have hduperr : (dupErrors (finalIndex inp.files).1 (finalIndex inp.files).2).countP
      (isDupIdFor s) = if s ∈ ((finalIndex inp.files).2).map Prod.fst then 1 else 0 := by
    unfold dupErrors
    rw [List.countP_map]
    have hfun : ((isDupIdFor s) ∘ (fun p => Finding.dupId p.1 (p.2 + 1)
        (List.lookup p.1 (finalIndex inp.files).1))) =
        (fun p : String × Nat => p.1 == s) := by
      funext p
      rfl
    rw [hfun]
    have hfun2 : (fun p : String × Nat => p.1 == s) =
        ((fun k : String => k == s) ∘ Prod.fst) := rfl
    rw [hfun2, ← List.countP_map]
    exact countP_beq_keys s _ hkeysnd
  refine ⟨?_, ?_, ?_, ?_⟩
  · rw [hI, hDf, howner]
  · rw [hE, hDf]
    unfold analysisErrors
    rw [List.countP_append, List.countP_append]
    have c1 : (inp.files.flatMap fileErrors).countP (isDupIdFor s) = 0 := by
      rw [List.countP_eq_zero]
      intro fi hfi
      obtain ⟨f, -, hfe⟩ := List.mem_flatMap.mp hfi
      rcases fileErrors_shape f fi hfe with ⟨r, rfl⟩ | ⟨r, rfl⟩ <;>
        exact fun hc => by cases hc
    have c3 : (unresolvedErrors inp.files).countP (isDupIdFor s) = 0 := by
      rw [List.countP_eq_zero]
      intro fi hfi
      unfold unresolvedErrors at hfi
      obtain ⟨p, -, hpe⟩ := List.mem_map.mp hfi
      rw [← hpe]
      exact fun hc => by cases hc
    rw [c1, c3, hduperr]
    rw [← List.countP_eq_length_filter]
    by_cases h2 : 2 ≤ (inp.files.filterMap dfOf?).countP (fun df => df.id == some s)
    · rw [if_pos (hmemkeys.mpr h2), if_pos h2]
    · rw [if_neg (fun hm => h2 (hmemkeys.mp hm)), if_neg h2]
  · intro c o hmem
    rw [hE] at hmem
    unfold analysisErrors at hmem
    rcases List.mem_append.mp hmem with hm1 | hm3
    · rcases List.mem_append.mp hm1 with hm1 | hm2
      · obtain ⟨f, -, hfe⟩ := List.mem_flatMap.mp hm1
        rcases fileErrors_shape f _ hfe with ⟨r, he⟩ | ⟨r, he⟩ <;> cases he
      · unfold dupErrors at hm2
        obtain ⟨p, hp, hpe⟩ := List.mem_map.mp hm2
        have hinj := (Finding.dupId.injEq _ _ _ _ _ _).mp hpe
        obtain ⟨h1, h2, h3⟩ := hinj
        have hlooks : List.lookup s (finalIndex inp.files).2 = some p.2 := by
          refine lookup_of_mem_nodup s _ p.2 hkeysnd ?_
          rw [← h1]
          exact hp
        have hv : 1 ≤ p.2 := hpos p hp
        have hnat2 : p.2 = (inp.files.filterMap dfOf?).countP
            (fun df => df.id == some s) - 1 := by
          rw [← hnat, hlooks]
          rfl
        constructor
        · rw [hDf, ← List.countP_eq_length_filter, ← h2, hnat2]
          omega
        · rw [hDf, ← howner, ← h3, h1]
    · unfold unresolvedErrors at hm3
      obtain ⟨p, -, hpe⟩ := List.mem_map.mp hm3
      cases hpe
  · intro hsorted df0 hdf0 df hdf
    rw [hDf] at hdf0 hdf
    have hp1 : ((inp.files.map RawFile.rel).Pairwise
        (fun a b => strLe a b = true)) := by
      rw [List.pairwise_map]
      exact hsorted
    have hp2 : (((inp.files.filterMap dfOf?).map DataFile.rel).Pairwise
        (fun a b => strLe a b = true)) :=
      hp1.sublist (datafile_rels_sublist inp.files)
    have hp3 : ((inp.files.filterMap dfOf?).Pairwise
        (fun a b => strLe a.rel b.rel = true)) := List.pairwise_map.mp hp2
    have hp4 := hp3.filter (fun df => df.id == some s)
    cases hfl : (inp.files.filterMap dfOf?).filter (fun df => df.id == some s) with
    | nil => rw [hfl] at hdf0; cases hdf0
    | cons x rest =>
        rw [hfl] at hdf0 hdf
        have hx : x = df0 := Option.some.inj hdf0
        rw [hfl, hx] at hp4
        rcases List.mem_cons.mp hdf with he | h2
        · rw [he, hx]
          exact strLe_refl df0.rel
        · exact (List.pairwise_cons.mp hp4).1 df h2

/-- C2 counterexample: with discovery order `b.json` before `a.json` (rglob
order is filesystem enumeration order, not sorted), the single
duplicate-identifier error names first-seen `data/b.json`, although
`data/a.json` — which also declares the identifier — is lexicographically
smaller. -/
theorem C2_counterexample_discovery_order :
    (analyze c2inp).errors = [Finding.dupId "x" 2 (some "data/b.json")] ∧
    ((analyze c2inp).datafiles.filter (fun df => df.id == some "x")).map DataFile.rel
      = ["data/b.json", "data/a.json"] ∧
    strLt "data/a.json" "data/b.json" = true :=
  ⟨rfl, rfl, rfl⟩

theorem C2_duplicate_identifiers_witness :
    List.lookup "x" (analyze c2inp).idIndex =
      (((analyze c2inp).datafiles.filter (fun df => df.id == some "x")).head?).map
        DataFile.rel ∧
    ((analyze c2inp).errors.countP (isDupIdFor "x") =
      if 2 ≤ ((analyze c2inp).datafiles.filter (fun df => df.id == some "x")).length
      then 1 else 0) ∧
    (∀ c o, Finding.dupId "x" c o ∈ (analyze c2inp).errors →
      c = ((analyze c2inp).datafiles.filter (fun df => df.id == some "x")).length ∧
      o = (((analyze c2inp).datafiles.filter (fun df => df.id == some "x")).head?).map
        DataFile.rel) :=
  ⟨(C2_duplicate_identifiers c2inp rfl "x" (by decide)).1,
   (C2_duplicate_identifiers c2inp rfl "x" (by decide)).2.1,
   (C2_duplicate_identifiers c2inp rfl "x" (by decide)).2.2.1⟩

-- ------------------- C1 support: sort-key orders -------------------

theorem strPairLe_total (a b : String × String) :
    strPairLe a b = true ∨ strPairLe b a = true := by
  unfold strPairLe
  cases h1 : strLt a.1 b.1 with
  | true => left; rw [Bool.or_eq_true]; exact Or.inl rfl
  | false =>
      cases h2 : strLt b.1 a.1 with
      | true => right; rw [Bool.or_eq_true]; exact Or.inl rfl
      | false =>
          have he : a.1 = b.1 := strLt_connex h1 h2
          rcases strLe_total a.2 b.2 with h | h
          · left
            rw [Bool.or_eq_true]
            right
            rw [Bool.and_eq_true]
            exact ⟨beq_iff_eq.mpr he, h⟩
          · right
            rw [Bool.or_eq_true]
            right
            rw [Bool.and_eq_true]
            exact ⟨beq_iff_eq.mpr he.symm, h⟩

theorem strPairLe_trans {a b c : String × String}
    (h1 : strPairLe a b = true) (h2 : strPairLe b c = true) :
    strPairLe a c = true := by
  unfold strPairLe at h1 h2 ⊢
  rw [Bool.or_eq_true] at h1 h2 ⊢
  rcases h1 with h1 | h1
  · rcases h2 with h2 | h2
    · exact Or.inl (strLt_trans h1 h2)
    · rw [Bool.and_eq_true] at h2
      have he : b.1 = c.1 := beq_iff_eq.mp h2.1
      exact Or.inl (he ▸ h1)
  · rw [Bool.and_eq_true] at h1
    have he : a.1 = b.1 := beq_iff_eq.mp h1.1
    rcases h2 with h2 | h2
    · exact Or.inl (he ▸ h2)
    · rw [Bool.and_eq_true] at h2
      have he2 : b.1 = c.1 := beq_iff_eq.mp h2.1
      right
      rw [Bool.and_eq_true]
      exact ⟨beq_iff_eq.mpr (he.trans he2), strLe_trans h1.2 h2.2⟩


@[instance] theorem dfLe_isTotal : IsTotal DataFile dfLe :=
  ⟨fun a b => strPairLe_total (dfSortKey a) (dfSortKey b)⟩

@[instance] theorem dfLe_isTrans : IsTrans DataFile dfLe :=
  ⟨fun _ _ _ => strPairLe_trans⟩
theorem strPairLe_antisymm {a b : String × String}
    (h1 : strPairLe a b = true) (h2 : strPairLe b a = true) : a = b := by
  unfold strPairLe at h1 h2
  rw [Bool.or_eq_true] at h1 h2
  rcases h1 with h1 | h1
  · rcases h2 with h2 | h2
    · rw [strLt_asymm h1] at h2; cases h2
    · rw [Bool.and_eq_true] at h2
      have he : b.1 = a.1 := beq_iff_eq.mp h2.1
      rw [he] at h1
      rw [strLt_irrefl] at h1
      cases h1
  · rw [Bool.and_eq_true] at h1
    have he : a.1 = b.1 := beq_iff_eq.mp h1.1
    rcases h2 with h2 | h2
    · rw [he] at h2
      rw [strLt_irrefl] at h2
      cases h2
    · rw [Bool.and_eq_true] at h2
      have he2 : a.2 = b.2 := strLe_antisymm h1.2 h2.2
      cases a; cases b
      simp_all

theorem partsLe_cons_lt {a b : String} (h : strLt a b = true) (as bs : List String) :
    partsLe (a :: as) (b :: bs) = true := by simp [partsLe, h]

theorem partsLe_cons_gt {a b : String} (h : strLt b a = true) (as bs : List String) :
    partsLe (a :: as) (b :: bs) = false := by
  simp [partsLe, h, strLt_asymm h]

theorem partsLe_cons_eq (a : String) (as bs : List String) :
    partsLe (a :: as) (a :: bs) = partsLe as bs := by
  simp [partsLe, strLt_irrefl]

theorem partsLe_total : ∀ as bs, partsLe as bs = true ∨ partsLe bs as = true
  | [], _ => Or.inl rfl
  | _ :: _, [] => Or.inr rfl
  | a :: as, b :: bs => by
      cases h1 : strLt a b with
      | true => exact Or.inl (partsLe_cons_lt h1 as bs)
      | false =>
          cases h2 : strLt b a with
          | true => exact Or.inr (partsLe_cons_lt h2 bs as)
          | false =>
              have he : a = b := strLt_connex h1 h2
              subst he
              rw [partsLe_cons_eq, partsLe_cons_eq]
              exact partsLe_total as bs

theorem partsLe_trans : ∀ as bs cs, partsLe as bs = true → partsLe bs cs = true →
    partsLe as cs = true
  | [], _, _, _, _ => rfl
  | a :: as, [], cs, h1, _ => by cases h1
  | a :: as, b :: bs, [], _, h2 => by cases h2
  | a :: as, b :: bs, c :: cs, h1, h2 => by
      cases hab : strLt a b with
      | true =>
          cases hbc : strLt b c with
          | true => exact partsLe_cons_lt (strLt_trans hab hbc) as cs
          | false =>
              cases hcb : strLt c b with
              | true => rw [partsLe_cons_gt hcb] at h2; cases h2
              | false =>
                  have he : b = c := strLt_connex hbc hcb
                  subst he
                  exact partsLe_cons_lt hab as cs
      | false =>
          cases hba : strLt b a with
          | true => rw [partsLe_cons_gt hba] at h1; cases h1
          | false =>
              have he : a = b := strLt_connex hab hba
              subst he
              rw [partsLe_cons_eq] at h1
              cases hac : strLt a c with
              | true => exact partsLe_cons_lt hac as cs
              | false =>
                  cases hca : strLt c a with
                  | true => rw [partsLe_cons_gt hca] at h2; cases h2
                  | false =>
                      have he2 : a = c := strLt_connex hac hca
                      subst he2
                      rw [partsLe_cons_eq] at h2 ⊢
                      exact partsLe_trans as bs cs h1 h2


@[instance] theorem assetLe_isTotal : IsTotal AssetFile assetLe :=
  ⟨fun a b => partsLe_total a.parts b.parts⟩

@[instance] theorem assetLe_isTrans : IsTrans AssetFile assetLe :=
  ⟨fun _ _ _ h1 h2 => partsLe_trans _ _ _ h1 h2⟩
theorem partsLe_antisymm : ∀ as bs, partsLe as bs = true → partsLe bs as = true →
    as = bs
  | [], [], _, _ => rfl
  | [], _ :: _, _, h2 => by cases h2
  | _ :: _, [], h1, _ => by cases h1
  | a :: as, b :: bs, h1, h2 => by
      cases hab : strLt a b with
      | true => rw [partsLe_cons_gt hab] at h2; cases h2
      | false =>
          cases hba : strLt b a with
          | true => rw [partsLe_cons_gt hba] at h1; cases h1
          | false =>
              have he : a = b := strLt_connex hab hba
              subst he
              rw [partsLe_cons_eq] at h1 h2
              rw [partsLe_antisymm as bs h1 h2]

-- ------------------- C1 support: permutation invariance -------------------

theorem nodup_same_mem_perm (l₁ l₂ : List String) (h₁ : l₁.Nodup) (h₂ : l₂.Nodup)
    (hm : ∀ x, x ∈ l₁ ↔ x ∈ l₂) : l₁.Perm l₂ := by
  rw [List.perm_iff_count]
  intro a
  by_cases ha : a ∈ l₁
  · rw [List.count_eq_one_of_mem h₁ ha, List.count_eq_one_of_mem h₂ ((hm a).mp ha)]
  · rw [List.count_eq_zero_of_not_mem ha,
      List.count_eq_zero_of_not_mem (fun hc => ha ((hm a).mpr hc))]

theorem sortedDedup_perm {l l' : List String} (h : l.Perm l') :
    sortedDedup l = sortedDedup l' := by
  have p1 := sortedDedup_pairwise_aux l [] List.Pairwise.nil
  have p2 := sortedDedup_pairwise_aux l' [] List.Pairwise.nil
  refine perm_pairwise_eq _ _ ?_ p1 p2 ?_
  · refine nodup_same_mem_perm _ _ (sortedDedup_nodup l) (sortedDedup_nodup l') ?_
    intro x
    rw [mem_sortedDedup, mem_sortedDedup]
    exact ⟨fun hx => h.subset hx, fun hx => h.symm.subset hx⟩
  · intro a _ b _ hab hba
    have := strLt_asymm hab
    rw [this] at hba
    cases hba

theorem typeStats_perm {dfs dfs' : List DataFile} (h : dfs.Perm dfs') :
    typeStats dfs = typeStats dfs' := by
  unfold typeStats
  rw [sortedDedup_perm (h.map (fun df => df.typeGuess))]
  refine List.map_congr_left ?_
  intro t _
  rw [h.countP_eq]

/-- Two sorted permutations with injective sort keys coincide. -/
theorem insertionSort_perm_eq_of_keys {dfs dfs' : List DataFile}
    (h : dfs.Perm dfs') (hkeys : (dfs.map dfSortKey).Nodup) :
    List.insertionSort dfLe dfs = List.insertionSort dfLe dfs' := by
  refine perm_pairwise_eq _ _ ?_ (List.sorted_insertionSort dfLe dfs)
    (List.sorted_insertionSort dfLe dfs') ?_
  · exact (List.perm_insertionSort dfLe dfs).trans
      (h.trans (List.perm_insertionSort dfLe dfs').symm)
  · intro a ha b hb hab hba
    have hka : ((List.insertionSort dfLe dfs).map dfSortKey).Nodup :=
      ((List.perm_insertionSort dfLe dfs).map dfSortKey).nodup_iff.mpr hkeys
    exact map_nodup_inj dfSortKey _ hka a ha b hb (strPairLe_antisymm hab hba)

theorem insertionSort_perm_eq_of_parts {l l' : List AssetFile}
    (h : l.Perm l') (hp : (l.map AssetFile.parts).Nodup) :
    List.insertionSort assetLe l = List.insertionSort assetLe l' := by
  refine perm_pairwise_eq _ _ ?_ (List.sorted_insertionSort assetLe l)
    (List.sorted_insertionSort assetLe l') ?_
  · exact (List.perm_insertionSort assetLe l).trans
      (h.trans (List.perm_insertionSort assetLe l').symm)
  · intro a ha b hb hab hba
    have hka : ((List.insertionSort assetLe l).map AssetFile.parts).Nodup :=
      ((List.perm_insertionSort assetLe l).map AssetFile.parts).nodup_iff.mpr hp
    exact map_nodup_inj AssetFile.parts _ hka a ha b hb (partsLe_antisymm _ _ hab hba)

/-- C1 (amended): with the generation timestamp and root rendering fixed,
the manifest — and its serialized bytes — is a pure function of the SET of
discovered files and assets: any re-enumeration (permutation) of the same
tree produces the identical manifest, provided no two records share a
`(type, id-or-path)` sort key and no two assets share a path. The
timestamp embedded at the top of the manifest breaks byte-identity across
runs at different times (see the counterexample). -/
theorem C1_manifest_determinism (inp₁ inp₂ : AnalyzeInput)
    (h₁ : inp₁.dataDirExists = true) (h₂ : inp₂.dataDirExists = true)
    (hfiles : inp₁.files.Perm inp₂.files) (hassets : inp₁.assets.Perm inp₂.assets)
    (hg : inp₁.generatedAt = inp₂.generatedAt) (hr : inp₁.rootStr = inp₂.rootStr)
    (hkeys : ((inp₁.files.filterMap dfOf?).map dfSortKey).Nodup)
    (hap : (inp₁.assets.map AssetFile.parts).Nodup) :
    (analyze inp₁).manifest = (analyze inp₂).manifest ∧
    (∀ m₁ m₂, (analyze inp₁).manifest = some m₁ →
      (analyze inp₂).manifest = some m₂ → manifestBytes m₁ = manifestBytes m₂) := by
  obtain ⟨-, -, -, -, -, -, hM₁, -, -⟩ := analyze_fields inp₁ h₁
  obtain ⟨-, -, -, -, -, -, hM₂, -, -⟩ := analyze_fields inp₂ h₂
  have hdperm : (inp₁.files.filterMap dfOf?).Perm (inp₂.files.filterMap dfOf?) :=
    hfiles.filterMap dfOf?
  have hbuild : buildManifest inp₁.generatedAt inp₁.rootStr
      (inp₁.files.filterMap dfOf?) inp₁.assets =
      buildManifest inp₂.generatedAt inp₂.rootStr
      (inp₂.files.filterMap dfOf?) inp₂.assets := by
    unfold buildManifest
    rw [hg, hr, insertionSort_perm_eq_of_keys hdperm hkeys,
      insertionSort_perm_eq_of_parts hassets hap, typeStats_perm hdperm,
      hdperm.length_eq, hassets.length_eq]
  refine ⟨?_, ?_⟩
  · rw [hM₁, hM₂, hbuild]
  · intro m₁ m₂ hm₁ hm₂
    rw [hM₁] at hm₁
    rw [hM₂] at hm₂
    cases hm₁
    cases hm₂
    rw [hbuild]

/-- C1 counterexample: the manifest embeds `generated_at_utc` from
`datetime.utcnow()`, so two runs over the identical (here: empty) tree at
different times produce different manifest bytes — the serialized manifest
is NOT a function of the data files and assets alone. -/
theorem C1_counterexample_timestamp :
    (analyze ⟨true, [], [], ⟨fun _ => false, fun _ => false⟩, false, false,
      "2024-01-01T00:00:00Z", "/r"⟩).manifest.map manifestBytes ≠
    (analyze ⟨true, [], [], ⟨fun _ => false, fun _ => false⟩, false, false,
      "2024-01-01T00:00:01Z", "/r"⟩).manifest.map manifestBytes := by
  decide

theorem C1_manifest_determinism_witness :
    (analyze c1inpA).manifest = (analyze c1inpB).manifest :=
  (C1_manifest_determinism c1inpA c1inpB rfl rfl
    (List.Perm.swap c1fileB c1fileA []) (List.Perm.refl []) rfl rfl
    (by decide) (by decide)).1
